import Mathlib

/-!
Verification development for the memalloc free-space manager.

The model below is a shallow embedding of the current allocator of the
repository: the core manager in kernel.rs, the intrusive list in list.rs,
the region and block headers in region.rs and block.rs, the free index in
freelist.rs and the alignment helper in utils.rs.  The facade module
memalloc (the lock plus dispatch layer holding MIN_BLOCK_SIZE and the
deallocate entry point) is not among the sources; the parts of the model
that stand in for it are marked as modelled from the spec.  The legacy
standalone allocator in mmap.rs is referenced in comments where its
behaviour is relevant.

Machine integers are modelled as Nat with explicit reduction modulo 2^64
where the Rust code can wrap.  Header sizes are the 64-bit Rust layout
values of the corresponding structs.
-/

namespace Memalloc

/-- Machine word size in bytes; the crate targets 64-bit platforms, so
size_of::usize = 8. -/
def WORD : Nat := 8

/-- Modulus of usize arithmetic. -/
def USIZE : Nat := 2 ^ 64

/-- block.rs BLOCK_HEADER_SIZE = size_of of Node-of-Block: two option
pointers of the list node (16) plus the Block data, a usize size, a padded
bool flag and a region pointer (24). -/
def BLOCK_HEADER_SIZE : Nat := 40

/-- region.rs REGION_HEADER_SIZE = size_of of Node-of-Region: two option
pointers (16) plus the Region data, a usize size and a three-word List
header (32). -/
def REGION_HEADER_SIZE : Nat := 48

/-- Modelled from the spec: MIN_BLOCK_SIZE is defined in the absent
memalloc module.  The spec fixes it as sizeof(FreeIndexNode), and a free
index node is a list Node whose data is a single pointer (freelist.rs),
hence three words on a 64-bit target. -/
def MIN_BLOCK_SIZE : Nat := 24

/-- Page size returned by sysconf on the supported Linux targets. -/
def PAGE_SIZE : Nat := 4096

/-- Largest request size admitted by the model: Rust Layout guarantees
size does not exceed isize MAX. -/
def RMAX : Nat := 2 ^ 63 - 1

/-- utils.rs align: (to_be_aligned + aligment - 1) & !(aligment - 1) in
usize arithmetic.  The bitwise complement of (a - 1) on 64 bits is
2^64 - 1 - ((a - 1) mod 2^64). -/
def align (x a : Nat) : Nat :=
  ((x + a - 1) % USIZE) &&& (USIZE - 1 - (a - 1) % USIZE)

/-! ## State model

Blocks and regions carry the fields of block.rs Block and region.rs Region
together with the address of their header node; every block carries a
model identity (a fresh Nat standing for the pointer identity of its
header node), which the free index stores, exactly as freelist.rs stores
pointers to block nodes.  Pointer-valued inputs of the public operations
are given as positions in the region list, which is the information a
valid pointer determines. -/

structure Blk where
  id : Nat
  addr : Nat
  size : Nat
  is_free : Bool
deriving DecidableEq

structure Rgn where
  addr : Nat
  size : Nat
  blocks : List Blk
deriving DecidableEq

structure AState where
  regions : List Rgn
  freeList : List Nat
  nextId : Nat
  nextAddr : Nat
deriving DecidableEq

/-- Kernel::new: empty region list and free index.  The model hands out
platform ranges from a counter of fresh addresses, starting nonzero. -/
def initState : AState :=
  { regions := [], freeList := [], nextId := 0, nextAddr := 4096 }

/-- Resolve a block pointer (model id) inside one region's block list. -/
def blkOfIdIn : List Blk → Nat → Option Blk
  | [], _ => none
  | b :: rest, bid => if b.id = bid then some b else blkOfIdIn rest bid

def blkOfIdRgns : List Rgn → Nat → Option Blk
  | [], _ => none
  | rg :: rest, bid =>
    match blkOfIdIn rg.blocks bid with
    | some b => some b
    | none => blkOfIdRgns rest bid

/-- Dereference a block pointer stored in the free index. -/
def blkOfId (s : AState) (bid : Nat) : Option Blk :=
  blkOfIdRgns s.regions bid

/-- Position (index in the list) of the block with the given identity. -/
def posIn : List Blk → Nat → Option Nat
  | [], _ => none
  | b :: rest, bid => if b.id = bid then some 0 else (posIn rest bid).map (· + 1)

def posOfRgns : List Rgn → Nat → Option (Nat × Nat)
  | [], _ => none
  | rg :: rest, bid =>
    match posIn rg.blocks bid with
    | some j => some (0, j)
    | none => (posOfRgns rest bid).map (fun p => (p.1 + 1, p.2))

def findBlockPos (s : AState) (bid : Nat) : Option (Nat × Nat) :=
  posOfRgns s.regions bid

/-- FreeList::insert_free_block: the node is appended at the tail of the
index (List::append); marking the block free happens at the call sites of
the model. -/
def insertFreeBlock (fl : List Nat) (bid : Nat) : List Nat :=
  fl ++ [bid]

/-- FreeList::remove_free_block: linear scan for the first node whose data
is the given block pointer, then unlink it. -/
def removeFreeBlock (fl : List Nat) (bid : Nat) : List Nat :=
  fl.erase bid

/-- FreeList::find_free_block fit test: the dereferenced block's payload
size reaches the needed size.  A dangling pointer (impossible in reachable
states) does not fit. -/
def fits (s : AState) (needed bid : Nat) : Bool :=
  match blkOfId s bid with
  | some b => decide (needed ≤ b.size)
  | none => false

/-- FreeList::find_free_block: first-fit scan of the index with target
max(align(size, word), MIN_BLOCK_SIZE). -/
def findFreeBlock (s : AState) (r : Nat) : Option Nat :=
  if s.freeList.isEmpty then none
  else s.freeList.find? (fits s (max (align r WORD) MIN_BLOCK_SIZE))

/-- Result of Kernel::take_from_block: the successor state and the
returned payload pointer. -/
structure TakeOut where
  state : AState
  ret : Nat
deriving DecidableEq

/-- Kernel::take_from_block on the block at position j of region i.  On a
worthwhile split the block is shrunk, a new free block is spliced right
after it (List::insert_after) and indexed; otherwise the whole block is
handed out.  In both cases the block leaves the index, is marked used, and
the payload pointer header + BLOCK_HEADER_SIZE is returned. -/
def takeFromBlock (s : AState) (i j r : Nat) : TakeOut :=
  match s.regions[i]? with
  | none => { state := s, ret := 0 }
  | some rg =>
    match rg.blocks[j]? with
    | none => { state := s, ret := 0 }
    | some b =>
      let layout_size := align r WORD
      let requested := max layout_size MIN_BLOCK_SIZE
      let split_offset := align (BLOCK_HEADER_SIZE + requested) WORD
      let total := b.size + BLOCK_HEADER_SIZE
      if split_offset + BLOCK_HEADER_SIZE + MIN_BLOCK_SIZE ≤ total then
        let b1 : Blk := { b with size := split_offset - BLOCK_HEADER_SIZE, is_free := false }
        let nb : Blk := { id := s.nextId, addr := b.addr + split_offset,
                          size := total - split_offset - BLOCK_HEADER_SIZE, is_free := true }
        { state :=
            { regions := s.regions.set i
                { rg with blocks := rg.blocks.take j ++ b1 :: nb :: rg.blocks.drop (j + 1) },
              freeList := insertFreeBlock (removeFreeBlock s.freeList b.id) nb.id,
              nextId := s.nextId + 1,
              nextAddr := s.nextAddr },
          ret := b.addr + BLOCK_HEADER_SIZE }
      else
        { state :=
            { regions := s.regions.set i
                { rg with blocks := rg.blocks.set j { b with is_free := false } },
              freeList := removeFreeBlock s.freeList b.id,
              nextId := s.nextId,
              nextAddr := s.nextAddr },
          ret := b.addr + BLOCK_HEADER_SIZE }

/-- Kernel::allocate_new_region: size the region, ask the platform, write
the region header at the base of the acquired range (List::append at the
platform address), the single block header right after it, and index that
block.  The model draws the platform base from the fresh-address counter. -/
def allocateNewRegion (s : AState) (r : Nat) : AState :=
  let layout_size := align r WORD
  let needed_payload := max layout_size MIN_BLOCK_SIZE
  let needed := needed_payload + BLOCK_HEADER_SIZE
  let region_size := align needed PAGE_SIZE
  let base := s.nextAddr
  let rsize := region_size - REGION_HEADER_SIZE
  let nb : Blk := { id := s.nextId, addr := base + REGION_HEADER_SIZE,
                    size := rsize - BLOCK_HEADER_SIZE, is_free := true }
  { regions := s.regions ++ [{ addr := base, size := rsize, blocks := [nb] }],
    freeList := insertFreeBlock s.freeList nb.id,
    nextId := s.nextId + 1,
    nextAddr := s.nextAddr + region_size }

/-- Outcome of the allocate entry point: a panic (kernel.rs calls expect
on the platform result, mmap.rs calls the panic macro) carrying the state
at the abort, or a normal return with a payload pointer, 0 standing for
the null pointer. -/
inductive AllocOut where
  | panicked (s : AState)
  | ok (s : AState) (ret : Nat)
deriving DecidableEq

/-- Taking the found block: the pointer returned by the index search is
resolved to its position; a dangling pointer (impossible in reachable
states) is modelled as a null return. -/
def allocFound (s : AState) (bid r : Nat) : AllocOut :=
  match findBlockPos s bid with
  | some p => let t := takeFromBlock s p.1 p.2 r
              AllocOut.ok t.state t.ret
  | none => AllocOut.ok s 0

/-- Modelled from the spec: the allocate entry point lives in the absent
memalloc facade.  Control flow follows the spec overview and the mmap.rs
ancestor: first-fit search, on miss grow the heap and search again, null
if still no fit.  The mmapOk flag feeds the platform outcome; on failure
kernel.rs panics inside allocate_new_region before touching any state. -/
def allocOp (mmapOk : Bool) (s : AState) (r : Nat) : AllocOut :=
  match findFreeBlock s r with
  | some bid => allocFound s bid r
  | none =>
    if mmapOk then
      let s1 := allocateNewRegion s r
      match findFreeBlock s1 r with
      | some bid => allocFound s1 bid r
      | none => AllocOut.ok s1 0
    else AllocOut.panicked s

/-- State after an allocate call with a willing platform. -/
def allocState (s : AState) (r : Nat) : AState :=
  match allocOp true s r with
  | AllocOut.ok s' _ => s'
  | AllocOut.panicked s' => s'

/-- The state carried by an allocate outcome, panic or return alike. -/
def outState : AllocOut → AState
  | AllocOut.panicked s => s
  | AllocOut.ok s _ => s

/-- Region::merge_with_prev on the block at position j: if the previous
block is free, remove it from the index, extend it over the current block
(header plus payload), unlink the current block, and let the handle point
at the enlarged predecessor. -/
def mergeWithPrev (bs : List Blk) (j : Nat) (fl : List Nat) :
    List Blk × Nat × List Nat :=
  if j = 0 then (bs, j, fl)
  else
    match bs[j-1]?, bs[j]? with
    | some pb, some b =>
      if pb.is_free then
        (bs.take (j-1) ++
          { pb with size := pb.size + BLOCK_HEADER_SIZE + b.size } :: bs.drop (j+1),
         j - 1, removeFreeBlock fl pb.id)
      else (bs, j, fl)
    | _, _ => (bs, j, fl)

/-- Region::merge_with_next on the block at position j: if the next block
is free, remove it from the index and absorb it. -/
def mergeWithNext (bs : List Blk) (j : Nat) (fl : List Nat) :
    List Blk × Nat × List Nat :=
  match bs[j]?, bs[j+1]? with
  | some b, some nb =>
    if nb.is_free then
      (bs.take j ++
        { b with size := b.size + BLOCK_HEADER_SIZE + nb.size } :: bs.drop (j+2),
       j, removeFreeBlock fl nb.id)
    else (bs, j, fl)
  | _, _ => (bs, j, fl)

/-- Kernel::check_region_removal: if the region holds a single block the
block leaves the index, the region leaves the region list and its memory
goes back to the platform; otherwise the block is removed from the index
and reinserted at its current payload address. -/
def checkRegionRemoval (s : AState) (i bid : Nat) : AState :=
  match s.regions[i]? with
  | none => s
  | some rg =>
    if rg.blocks.length = 1 then
      { s with regions := s.regions.eraseIdx i,
               freeList := removeFreeBlock s.freeList bid }
    else
      { s with freeList := insertFreeBlock (removeFreeBlock s.freeList bid) bid }

/-- Modelled from the spec: the deallocate entry point lives in the absent
memalloc facade.  Null is a no-op; the header is recovered from the
pointer (given as the position it determines); an already free block is a
no-op; otherwise flag free, merge with the previous and next neighbours
(region.rs) and finish with Kernel::check_region_removal.  The null and
already-free guards mirror the surviving mmap.rs dealloc. -/
def deallocOp (s : AState) (p : Option (Nat × Nat)) : AState :=
  match p with
  | none => s
  | some (i, j) =>
    match s.regions[i]? with
    | none => s
    | some rg =>
      match rg.blocks[j]? with
      | none => s
      | some b =>
        if b.is_free then s
        else
          let bs0 := rg.blocks.set j { b with is_free := true }
          let m1 := mergeWithPrev bs0 j s.freeList
          let m2 := mergeWithNext m1.1 m1.2.1 m1.2.2
          let bid := match m2.1[m2.2.1]? with
            | some cur => cur.id
            | none => 0
          let s1 : AState :=
            { s with regions := s.regions.set i { rg with blocks := m2.1 },
                     freeList := m2.2.2 }
          checkRegionRemoval s1 i bid

/-- Reachable allocator states: the empty manager, then any sequence of
allocate and deallocate calls.  Allocate sizes observe the Layout bound;
a platform failure panics and so ends the execution; deallocate takes a
null pointer or a pointer into the heap, given by the position it
determines (a foreign pointer is undefined behaviour and not modelled). -/
inductive Reach : AState → Prop where
  | init : Reach initState
  | alloc (s : AState) (r : Nat) (hs : Reach s) (hr : r ≤ RMAX) :
      Reach (allocState s r)
  | dealloc (s : AState) (p : Option (Nat × Nat)) (hs : Reach s) :
      Reach (deallocOp s p)

/-! ## Invariants -/

/-- Two neighbouring blocks are not both free. -/
def okPair (x y : Blk) : Prop := ¬(x.is_free = true ∧ y.is_free = true)

instance : DecidableRel okPair := fun x y => by unfold okPair; infer_instance

/-- Within every region no two neighbouring blocks are both free. -/
def NoAdjFree (s : AState) : Prop :=
  ∀ rg ∈ s.regions, List.Chain' okPair rg.blocks

/-- The blocks starting at address a cover the range up to e exactly:
each header sits where the previous block ends. -/
def covers (a : Nat) : List Blk → Nat → Bool
  | [], e => a == e
  | b :: bs, e => (b.addr == a) && covers (a + BLOCK_HEADER_SIZE + b.size) bs e

/-- Layout invariant: within every region the blocks are contiguous, the
first beginning right after the region header, and they exhaust the
region's payload. -/
def Layouted (s : AState) : Prop :=
  ∀ rg ∈ s.regions,
    covers (rg.addr + REGION_HEADER_SIZE) rg.blocks
      (rg.addr + REGION_HEADER_SIZE + rg.size) = true

/-- Minimum-payload invariant. -/
def MinSized (s : AState) : Prop :=
  ∀ rg ∈ s.regions, ∀ b ∈ rg.blocks, MIN_BLOCK_SIZE ≤ b.size

def idsOf (rg : Rgn) : List Nat := rg.blocks.map Blk.id

/-- All block identities of the state, in region-list order. -/
def blkIds (s : AState) : List Nat := (s.regions.map idsOf).flatten

/-- Free-index fidelity: a block is flagged free exactly when its pointer
is linked in the free index. -/
def Fidelity (s : AState) : Prop :=
  ∀ rg ∈ s.regions, ∀ b ∈ rg.blocks, (b.is_free = true ↔ b.id ∈ s.freeList)

/-- Block identities are pairwise distinct and below the freshness
counter. -/
def GoodIds (s : AState) : Prop :=
  (blkIds s).Nodup ∧ ∀ bid ∈ blkIds s, bid < s.nextId

/-- The free index is duplicate-free and only holds live block pointers. -/
def GoodFree (s : AState) : Prop :=
  s.freeList.Nodup ∧ s.freeList ⊆ blkIds s

structure Inv (s : AState) : Prop where
  noadj : NoAdjFree s
  layout : Layouted s
  minsz : MinSized s
  fid : Fidelity s
  gids : GoodIds s
  gfree : GoodFree s


/-- Claim C1 as stated: on platform acquisition failure the allocate
operation returns a null pointer with the state unchanged (in particular
it does not panic). -/
def claimC1 : Prop :=
  ∀ s r, findFreeBlock s r = none → allocOp false s r = AllocOut.ok s 0

/-- Trace for the heap-hygiene claim: allocate 24 bytes, request 4016
bytes (which returns null because of the region-sizing slip but leaves a
fresh region behind), then deallocate the only allocation ever made. -/
def leakState : AState :=
  deallocOp (allocState (allocState initState 24) 4016) (some (0, 0))

/-- A small well-formed state holding one region with a single free,
indexed block; used by witnesses. -/
def oneFreeState : AState :=
  { regions := [⟨4096, 4048, [⟨0, 4144, 4008, true⟩]⟩],
    freeList := [0], nextId := 1, nextAddr := 8192 }

/-- The target payload size for a raw request, as computed by both the
free-list search and take_from_block. -/
def targetSize (r : Nat) : Nat := max (align r WORD) MIN_BLOCK_SIZE

/-- The offset, from the chosen block's header, at which take_from_block
starts the new block on a split. -/
def splitOffset (r : Nat) : Nat := align (BLOCK_HEADER_SIZE + targetSize r) WORD

/-! ## Arithmetic facts about align -/

lemma land_mask (n k : Nat) (hn : n < 2 ^ 64) (hk : k ≤ 64) :
    n &&& (2 ^ 64 - 2 ^ k) = 2 ^ k * (n / 2 ^ k) := by
  have hsplit : (2 : Nat) ^ (64 - k) * 2 ^ k = 2 ^ 64 := by
    rw [← pow_add]
    congr 1
    omega
  have hmask : (2 : Nat) ^ 64 - 2 ^ k = (2 ^ (64 - k) - 1) <<< k := by
    rw [Nat.shiftLeft_eq, Nat.sub_mul, one_mul, hsplit]
  have hrhs : 2 ^ k * (n / 2 ^ k) = (n >>> k) <<< k := by
    rw [Nat.shiftLeft_eq, Nat.shiftRight_eq_div_pow, Nat.mul_comm]
  apply Nat.eq_of_testBit_eq
  intro i
  rw [hmask, hrhs, Nat.testBit_and, Nat.testBit_shiftLeft,
    Nat.testBit_shiftLeft, Nat.testBit_shiftRight,
    Nat.testBit_two_pow_sub_one]
  by_cases hik : k ≤ i
  · have hge : (decide (i ≥ k)) = true := by simp [ge_iff_le, hik]
    have hki : k + (i - k) = i := by omega
    by_cases hi64 : i < 64
    · have : i - k < 64 - k := by omega
      simp [hge, hki, this]
    · have h1 : n.testBit i = false := by
        apply Nat.testBit_lt_two_pow
        calc n < 2 ^ 64 := hn
        _ ≤ 2 ^ i := Nat.pow_le_pow_right (by norm_num) (by omega)
      have h2 : ¬ (i - k < 64 - k) := by omega
      simp [hge, hki, h1, h2]
  · have hge : (decide (i ≥ k)) = false := by simp [ge_iff_le, hik]
    simp [hge]

/-- Closed form of align at a power-of-two alignment, as used with the
word size and the page size: the result is the least multiple of the
alignment at distance below it. -/
lemma align_pow2_spec (x k : Nat) (hk : k ≤ 64) (hx : x + (2 ^ k - 1) < 2 ^ 64) :
    ∃ q, align x (2 ^ k) = 2 ^ k * q ∧ x ≤ 2 ^ k * q ∧ 2 ^ k * q ≤ x + (2 ^ k - 1) := by
  have hbig : (USIZE : Nat) = 2 ^ 64 := rfl
  have hkpos : (1 : Nat) ≤ 2 ^ k := Nat.one_le_two_pow
  have hkle : (2 : Nat) ^ k ≤ 2 ^ 64 := Nat.pow_le_pow_right (by norm_num) hk
  have hx' : x + 2 ^ k - 1 = x + (2 ^ k - 1) := by omega
  have hn : x + 2 ^ k - 1 < 2 ^ 64 := by omega
  have hmod1 : (x + 2 ^ k - 1) % USIZE = x + 2 ^ k - 1 := by
    rw [hbig]; exact Nat.mod_eq_of_lt hn
  have hmod2 : (2 ^ k - 1) % USIZE = 2 ^ k - 1 := by
    rw [hbig]; exact Nat.mod_eq_of_lt (by omega)
  have hmask : USIZE - 1 - (2 ^ k - 1) % USIZE = 2 ^ 64 - 2 ^ k := by
    rw [hmod2, hbig]; omega
  have heq : align x (2 ^ k) = 2 ^ k * ((x + 2 ^ k - 1) / 2 ^ k) := by
    unfold align
    rw [hmod1, hmask]
    exact land_mask _ _ hn hk
  refine ⟨(x + 2 ^ k - 1) / 2 ^ k, heq, ?_, ?_⟩
  · have hdm := Nat.div_add_mod (x + 2 ^ k - 1) (2 ^ k)
    have hrem : (x + 2 ^ k - 1) % 2 ^ k < 2 ^ k := Nat.mod_lt _ (by omega)
    omega
  · have hdm := Nat.div_add_mod (x + 2 ^ k - 1) (2 ^ k)
    omega

/-- Behaviour of align at the word size, in the ranges the allocator uses. -/
lemma align_word_spec (x : Nat) (hx : x ≤ 2 ^ 63 + 100) :
    x ≤ align x WORD ∧ align x WORD ≤ x + 7 := by
  have hw : (WORD : Nat) = 2 ^ 3 := by norm_num [WORD]
  obtain ⟨q, hq, h1, h2⟩ := align_pow2_spec x 3 (by norm_num) (by norm_num; omega)
  rw [hw, hq]
  norm_num at h1 h2 ⊢
  omega

/-- Behaviour of align at the page size, in the ranges the allocator uses. -/
lemma align_page_spec (x : Nat) (hx1 : 1 ≤ x) (hx : x ≤ 2 ^ 63 + 100) :
    x ≤ align x PAGE_SIZE ∧ align x PAGE_SIZE ≤ x + 4095 ∧ 4096 ≤ align x PAGE_SIZE := by
  have hp : (PAGE_SIZE : Nat) = 2 ^ 12 := by norm_num [PAGE_SIZE]
  obtain ⟨q, hq, h1, h2⟩ := align_pow2_spec x 12 (by norm_num) (by norm_num; omega)
  rw [hp, hq]
  norm_num at h1 h2 ⊢
  have hqpos : 1 ≤ q := by
    by_contra hcon
    have hq0 : q = 0 := by omega
    omega
  omega


/-! ## Claim C1 -/

/-- C1: the claim that a platform acquisition failure makes allocate
return a null pointer without panicking is false on the code: kernel.rs
calls expect on the platform result (and mmap.rs raises a panic), so at
the concrete input below the allocator aborts instead of returning. -/
theorem claim_C1_counterexample : ¬ claimC1 := by
  intro h
  have h1 := h initState 8 (by decide)
  have h2 : allocOp false initState 8 = AllocOut.panicked initState := by decide
  rw [h2] at h1
  exact absurd h1 (by decide)

/-- C1 amended: when the free-list search misses and the platform
acquisition then fails, the allocate operation panics, and the state
carried at the abort is the entry state: no region or free-index state
has been mutated. -/
theorem claim_C1_amended (s : AState) (r : Nat)
    (h : findFreeBlock s r = none) :
    allocOp false s r = AllocOut.panicked s := by
  simp [allocOp, h]

theorem claim_C1_witness :
    findFreeBlock initState 8 = none ∧
      allocOp false initState 8 = AllocOut.panicked initState :=
  ⟨by decide, claim_C1_amended initState 8 (by decide)⟩

/-! ## Claim C2 -/

/-- C2: kernel.rs omits REGION_HEADER_SIZE when sizing a new region
(region_size = align(payload + BLOCK_HEADER_SIZE, page)), so the grown
region cannot always serve the request.  At request size 4016 the code
maps 4096 bytes and writes a single free indexed block of payload
4008 < 4016, while the formula of the claim yields 8192; the header
placement and the payload identity region_size - REGION_HEADER_SIZE -
BLOCK_HEADER_SIZE are as claimed. -/
theorem claim_C2_region_sizing_bug :
    (allocateNewRegion initState 4016).regions =
      [{ addr := 4096, size := 4048,
         blocks := [{ id := 0, addr := 4144, size := 4008, is_free := true }] }] ∧
    (allocateNewRegion initState 4016).freeList = [0] ∧
    align (max (align 4016 WORD) MIN_BLOCK_SIZE + BLOCK_HEADER_SIZE
        + REGION_HEADER_SIZE) PAGE_SIZE = 8192 ∧
    max (align 4016 WORD) MIN_BLOCK_SIZE = 4016 ∧
    (4008 : Nat) < 4016 := by
  refine ⟨by decide, by decide, by decide, by decide, by decide⟩

/-! ## Claim C5 -/

/-- C5: evaluation of the trace allocate 24 (succeeds), allocate 4016
(returns null: the region-sizing slip of kernel.rs leaves the freshly
grown region unable to serve the request), deallocate the single
allocation ever made.  Afterwards every remaining block is free, yet the
region list and the free index are not empty, contradicting the
heap-hygiene part of the claim; the single-block region removal did fire
for the first region. -/
theorem claim_C5_hygiene_bug :
    allocOp true (allocState initState 24) 4016 =
      AllocOut.ok (allocateNewRegion (allocState initState 24) 4016) 0 ∧
    (∀ rg ∈ leakState.regions, ∀ b ∈ rg.blocks, b.is_free = true) ∧
    leakState.regions.length = 1 ∧ leakState.freeList.length = 1 := by
  refine ⟨by decide, by decide, by decide, by decide⟩

/-! ## Claim C9 -/

/-- C9: deallocate of a null pointer returns with the whole allocator
state unchanged, and deallocate of a pointer whose block is already
flagged free returns with the whole allocator state unchanged. -/
theorem claim_C9_dealloc_noop (s : AState) :
    deallocOp s none = s ∧
    (∀ i j rg b, s.regions[i]? = some rg → rg.blocks[j]? = some b →
      b.is_free = true → deallocOp s (some (i, j)) = s) := by
  refine ⟨rfl, ?_⟩
  intro i j rg b h1 h2 h3
  simp [deallocOp, h1, h2, h3]

theorem claim_C9_witness :
    deallocOp oneFreeState none = oneFreeState ∧
      deallocOp oneFreeState (some (0, 0)) = oneFreeState := by
  obtain ⟨h1, h2⟩ := claim_C9_dealloc_noop oneFreeState
  refine ⟨h1, h2 0 0 ⟨4096, 4048, [⟨0, 4144, 4008, true⟩]⟩ ⟨0, 4144, 4008, true⟩
    (by decide) (by decide) (by decide)⟩

/-! ## Claim C8 -/

/-- C8: the free-list search returns the first block in index traversal
order whose payload size reaches max(align(request, word),
MIN_BLOCK_SIZE), and returns none exactly when no block in the index
reaches that target. -/
theorem claim_C8_first_fit (s : AState) (r : Nat) :
    (findFreeBlock s r = none ↔
      ∀ bid ∈ s.freeList, ∀ b, blkOfId s bid = some b →
        b.size < max (align r WORD) MIN_BLOCK_SIZE) ∧
    ∀ bid, findFreeBlock s r = some bid →
      (∃ b, blkOfId s bid = some b ∧
        max (align r WORD) MIN_BLOCK_SIZE ≤ b.size) ∧
      ∃ l₁ l₂, s.freeList = l₁ ++ bid :: l₂ ∧
        ∀ x ∈ l₁, ∀ bx, blkOfId s x = some bx →
          bx.size < max (align r WORD) MIN_BLOCK_SIZE := by
  set t := max (align r WORD) MIN_BLOCK_SIZE with ht
  constructor
  · constructor
    · intro hnone bid hmem b hb
      unfold findFreeBlock at hnone
      by_cases hemp : s.freeList.isEmpty
      · rw [List.isEmpty_iff] at hemp
        rw [hemp] at hmem
        simp at hmem
      · rw [if_neg hemp, List.find?_eq_none] at hnone
        have hfit := hnone bid hmem
        simp only [fits, hb] at hfit
        have hnot : ¬ (t ≤ b.size) := fun hle => hfit (decide_eq_true hle)
        omega
    · intro hall
      unfold findFreeBlock
      by_cases hemp : s.freeList.isEmpty
      · simp [hemp]
      · rw [if_neg hemp, List.find?_eq_none]
        intro x hx
        simp only [fits]
        cases hbx : blkOfId s x with
        | none => simp
        | some bx =>
          have hlt := hall x hx bx hbx
          have hnot : ¬ (t ≤ bx.size) := by omega
          simp [hnot]
  · intro bid hfind
    unfold findFreeBlock at hfind
    by_cases hemp : s.freeList.isEmpty
    · rw [if_pos hemp] at hfind
      exact absurd hfind (by simp)
    · rw [if_neg hemp, List.find?_eq_some] at hfind
      obtain ⟨hp, l₁, l₂, heq, hall⟩ := hfind
      constructor
      · simp only [fits] at hp
        cases hb : blkOfId s bid with
        | none => rw [hb] at hp; simp at hp
        | some b =>
          rw [hb] at hp
          exact ⟨b, rfl, of_decide_eq_true hp⟩
      · refine ⟨l₁, l₂, heq, ?_⟩
        intro x hx bx hbx
        have hfx := hall x hx
        simp only [fits, hbx] at hfx
        have hnot : ¬ (t ≤ bx.size) := by
          intro hle
          rw [decide_eq_true hle] at hfx
          exact absurd hfx (by simp)
        omega

theorem claim_C8_witness :
    findFreeBlock oneFreeState 8 = some 0 ∧
    ((∃ b, blkOfId oneFreeState 0 = some b ∧
        max (align 8 WORD) MIN_BLOCK_SIZE ≤ b.size) ∧
      ∃ l₁ l₂, oneFreeState.freeList = l₁ ++ 0 :: l₂ ∧
        ∀ x ∈ l₁, ∀ bx, blkOfId oneFreeState x = some bx →
          bx.size < max (align 8 WORD) MIN_BLOCK_SIZE) :=
  ⟨by decide, (claim_C8_first_fit oneFreeState 8).2 0 (by decide)⟩

/-! ## Positional list facts -/

lemma get_mid {α : Type} (L : List α) (x : α) (R : List α) :
    (L ++ x :: R)[L.length]? = some x := by
  induction L with
  | nil => simp
  | cons a t ih => simpa using ih

lemma set_mid {α : Type} (L : List α) (x y : α) (R : List α) :
    (L ++ x :: R).set L.length y = L ++ y :: R := by
  induction L with
  | nil => rfl
  | cons a t ih => simp [ih]

lemma eraseIdx_mid {α : Type} (L : List α) (x : α) (R : List α) :
    (L ++ x :: R).eraseIdx L.length = L ++ R := by
  induction L with
  | nil => rfl
  | cons a t ih => simpa using ih

lemma decomp_of_get {α : Type} {bs : List α} {j : Nat} {x : α} (h : bs[j]? = some x) :
    bs = bs.take j ++ x :: bs.drop (j + 1) ∧ (bs.take j).length = j := by
  rcases List.getElem?_eq_some_iff.mp h with ⟨hlt, hx⟩
  have hdrop : bs.drop j = x :: bs.drop (j + 1) := by
    rw [List.drop_eq_getElem_cons hlt, hx]
  refine ⟨?_, by simp [List.length_take]; omega⟩
  calc bs = bs.take j ++ bs.drop j := (List.take_append_drop j bs).symm
  _ = bs.take j ++ x :: bs.drop (j + 1) := by rw [hdrop]

/-! ## Facts about covers -/

lemma covers_nil_iff (a e : Nat) : covers a [] e = true ↔ a = e := by
  simp [covers]

lemma covers_cons_iff (a e : Nat) (b : Blk) (bs : List Blk) :
    covers a (b :: bs) e = true ↔
      b.addr = a ∧ covers (a + BLOCK_HEADER_SIZE + b.size) bs e = true := by
  simp [covers]

lemma covers_append_iff (L R : List Blk) (a e : Nat) :
    covers a (L ++ R) e = true ↔
      ∃ m, covers a L m = true ∧ covers m R e = true := by
  induction L generalizing a with
  | nil =>
    simp only [List.nil_append, covers_nil_iff]
    constructor
    · intro h
      exact ⟨a, rfl, h⟩
    · rintro ⟨m, rfl, h⟩
      exact h
  | cons b t ih =>
    simp only [List.cons_append, covers_cons_iff, ih]
    constructor
    · rintro ⟨hb, m, h1, h2⟩
      exact ⟨m, ⟨hb, h1⟩, h2⟩
    · rintro ⟨m, ⟨hb, h1⟩, h2⟩
      exact ⟨hb, m, h1, h2⟩

lemma covers_bounds (l : List Blk) (a e : Nat) (h : covers a l e = true) :
    a ≤ e ∧ ∀ b ∈ l, a ≤ b.addr ∧ b.addr + BLOCK_HEADER_SIZE + b.size ≤ e := by
  induction l generalizing a with
  | nil =>
    rw [covers_nil_iff] at h
    exact ⟨le_of_eq h, by simp⟩
  | cons b t ih =>
    rw [covers_cons_iff] at h
    obtain ⟨hb, hc⟩ := h
    obtain ⟨hle, hall⟩ := ih _ hc
    refine ⟨by omega, ?_⟩
    intro x hx
    rcases List.mem_cons.mp hx with rfl | hx
    · omega
    · have := hall x hx
      omega

/-! ## Small facts about okPair -/

lemma okPair_of_left {x : Blk} (y : Blk) (h : x.is_free = false) : okPair x y := by
  simp [okPair, h]

lemma okPair_of_right (x : Blk) {y : Blk} (h : y.is_free = false) : okPair x y := by
  simp [okPair, h]

lemma not_free_of_okPair_left {x y : Blk} (hx : x.is_free = true) (h : okPair x y) :
    y.is_free = false := by
  by_contra hy
  exact h ⟨hx, by simpa using hy⟩

lemma not_free_of_okPair_right {x y : Blk} (hy : y.is_free = true) (h : okPair x y) :
    x.is_free = false := by
  by_contra hx
  exact h ⟨by simpa using hx, hy⟩

lemma mem_of_mem_take_drop {α : Type} {l : List α} {i k : Nat} :
    ∀ x ∈ l.take i ++ l.drop k, x ∈ l := by
  intro x hx
  rcases List.mem_append.mp hx with h | h
  · exact (List.take_sublist _ _).subset h
  · exact (List.drop_sublist _ _).subset h

lemma mem_flat_ids {rs : List Rgn} {rg2 : Rgn} {x : Blk}
    (h1 : rg2 ∈ rs) (h2 : x ∈ rg2.blocks) : x.id ∈ (rs.map idsOf).flatten := by
  rw [List.mem_flatten]
  exact ⟨idsOf rg2, List.mem_map_of_mem _ h1, List.mem_map_of_mem _ h2⟩

/-! ## Behaviour of the merge helpers -/

lemma mergeWithPrev_zero (bs : List Blk) (fl : List Nat) :
    mergeWithPrev bs 0 fl = (bs, 0, fl) := by
  simp [mergeWithPrev]

lemma mergeWithPrev_keep (L : List Blk) (x : Blk) (R : List Blk) (fl : List Nat)
    (h : ∀ pb ∈ L.getLast?, pb.is_free = false) :
    mergeWithPrev (L ++ x :: R) L.length fl = (L ++ x :: R, L.length, fl) := by
  cases hL : L.getLast? with
  | none =>
    rw [List.getLast?_eq_none_iff] at hL
    subst hL
    exact mergeWithPrev_zero _ _
  | some pb =>
    have hpb : pb.is_free = false := h pb (by rw [hL]; rfl)
    rcases List.getLast?_eq_some_iff.mp hL with ⟨L', rfl⟩
    have hassoc : (L' ++ [pb]) ++ x :: R = L' ++ pb :: (x :: R) := by simp
    have hlen : (L' ++ [pb]).length = L'.length + 1 := by simp
    have h1 : ((L' ++ [pb]) ++ x :: R)[(L' ++ [pb]).length - 1]? = some pb := by
      rw [hassoc, hlen]
      simpa using get_mid L' pb (x :: R)
    have h2 : ((L' ++ [pb]) ++ x :: R)[(L' ++ [pb]).length]? = some x :=
      get_mid (L' ++ [pb]) x R
    unfold mergeWithPrev
    rw [if_neg (by omega)]
    rw [h1, h2]
    simp [hpb]

lemma mergeWithPrev_merge (L' : List Blk) (pb x : Blk) (R : List Blk) (fl : List Nat)
    (h : pb.is_free = true) :
    mergeWithPrev ((L' ++ [pb]) ++ x :: R) (L' ++ [pb]).length fl
      = (L' ++ ⟨pb.id, pb.addr, pb.size + BLOCK_HEADER_SIZE + x.size, pb.is_free⟩ :: R,
         L'.length, fl.erase pb.id) := by
  have hassoc : (L' ++ [pb]) ++ x :: R = L' ++ pb :: (x :: R) := by simp
  have hlen : (L' ++ [pb]).length = L'.length + 1 := by simp
  have h1 : ((L' ++ [pb]) ++ x :: R)[(L' ++ [pb]).length - 1]? = some pb := by
    rw [hassoc, hlen]
    simpa using get_mid L' pb (x :: R)
  have h2 : ((L' ++ [pb]) ++ x :: R)[(L' ++ [pb]).length]? = some x :=
    get_mid (L' ++ [pb]) x R
  have htake : ((L' ++ [pb]) ++ x :: R).take ((L' ++ [pb]).length - 1) = L' := by
    rw [hassoc, hlen]
    simp only [Nat.add_sub_cancel]
    exact List.take_left' rfl
  have hdrop : ((L' ++ [pb]) ++ x :: R).drop ((L' ++ [pb]).length + 1) = R := by
    have : (L' ++ [pb]) ++ x :: R = ((L' ++ [pb]) ++ [x]) ++ R := by simp
    rw [this]
    exact List.drop_left' (by simp)
  unfold mergeWithPrev
  rw [if_neg (by omega)]
  rw [h1, h2]
  simp only [h, if_pos, removeFreeBlock]
  rw [htake, hdrop, hlen]
  simp

lemma mergeWithNext_keep (L : List Blk) (x : Blk) (R : List Blk) (fl : List Nat)
    (h : ∀ nb ∈ R.head?, nb.is_free = false) :
    mergeWithNext (L ++ x :: R) L.length fl = (L ++ x :: R, L.length, fl) := by
  cases R with
  | nil =>
    unfold mergeWithNext
    rw [get_mid]
    have hnone : (L ++ x :: ([] : List Blk))[L.length + 1]? = none := by
      apply List.getElem?_eq_none
      simp
    rw [hnone]
  | cons nb R' =>
    have hnb : nb.is_free = false := h nb rfl
    have h2 : (L ++ x :: nb :: R')[L.length + 1]? = some nb := by
      have hshape : L ++ x :: nb :: R' = (L ++ [x]) ++ nb :: R' := by simp
      have hlen : L.length + 1 = (L ++ [x]).length := by simp
      rw [hshape, hlen]
      exact get_mid (L ++ [x]) nb R'
    unfold mergeWithNext
    rw [get_mid, h2]
    simp [hnb]

lemma mergeWithNext_merge (L : List Blk) (x nb : Blk) (R' : List Blk) (fl : List Nat)
    (h : nb.is_free = true) :
    mergeWithNext (L ++ x :: nb :: R') L.length fl
      = (L ++ ⟨x.id, x.addr, x.size + BLOCK_HEADER_SIZE + nb.size, x.is_free⟩ :: R',
         L.length, fl.erase nb.id) := by
  have h2 : (L ++ x :: nb :: R')[L.length + 1]? = some nb := by
    have hshape : L ++ x :: nb :: R' = (L ++ [x]) ++ nb :: R' := by simp
    have hlen : L.length + 1 = (L ++ [x]).length := by simp
    rw [hshape, hlen]
    exact get_mid (L ++ [x]) nb R'
  have htake : (L ++ x :: nb :: R').take L.length = L :=
    List.take_left' rfl
  have hdrop : (L ++ x :: nb :: R').drop (L.length + 2) = R' := by
    have hshape : L ++ x :: nb :: R' = ((L ++ [x]) ++ [nb]) ++ R' := by simp
    rw [hshape]
    exact List.drop_left' (by simp)
  unfold mergeWithNext
  rw [get_mid, h2]
  simp only [h, if_pos, removeFreeBlock]
  rw [htake, hdrop]

/-! ## Behaviour of check_region_removal -/

lemma checkRegionRemoval_one (s : AState) (i bid : Nat) (rg : Rgn)
    (h : s.regions[i]? = some rg) (hlen : rg.blocks.length = 1) :
    checkRegionRemoval s i bid =
      { s with regions := s.regions.eraseIdx i,
               freeList := s.freeList.erase bid } := by
  simp [checkRegionRemoval, h, hlen, removeFreeBlock]

lemma checkRegionRemoval_many (s : AState) (i bid : Nat) (rg : Rgn)
    (h : s.regions[i]? = some rg) (hlen : rg.blocks.length ≠ 1) :
    checkRegionRemoval s i bid =
      { s with freeList := s.freeList.erase bid ++ [bid] } := by
  simp [checkRegionRemoval, h, hlen, removeFreeBlock, insertFreeBlock]

/-! ## Arithmetic bundles for the operations -/

lemma targetSize_min (r : Nat) : MIN_BLOCK_SIZE ≤ targetSize r :=
  le_max_right _ _

lemma targetSize_le (r : Nat) (hr : r ≤ RMAX) : targetSize r ≤ 2 ^ 63 + 60 := by
  have h1 : align r WORD ≤ r + 7 :=
    (align_word_spec r (by unfold RMAX at hr; omega)).2
  unfold targetSize
  unfold RMAX at hr
  unfold MIN_BLOCK_SIZE
  omega

lemma splitOffset_ge (r : Nat) (hr : r ≤ RMAX) :
    BLOCK_HEADER_SIZE + targetSize r ≤ splitOffset r := by
  have h1 := targetSize_le r hr
  exact (align_word_spec _ (by unfold BLOCK_HEADER_SIZE; omega)).1

lemma regionSize_ge (r : Nat) (hr : r ≤ RMAX) :
    targetSize r + BLOCK_HEADER_SIZE ≤ align (targetSize r + BLOCK_HEADER_SIZE) PAGE_SIZE ∧
    4096 ≤ align (targetSize r + BLOCK_HEADER_SIZE) PAGE_SIZE := by
  have h1 := targetSize_le r hr
  have h2 := targetSize_min r
  have := align_page_spec (targetSize r + BLOCK_HEADER_SIZE)
    (by unfold BLOCK_HEADER_SIZE; omega)
    (by unfold BLOCK_HEADER_SIZE; omega)
  exact ⟨this.1, this.2.2⟩

/-! ## Membership in the id list -/

lemma mem_blkIds (s : AState) {rg : Rgn} {b : Blk}
    (h1 : rg ∈ s.regions) (h2 : b ∈ rg.blocks) : b.id ∈ blkIds s := by
  unfold blkIds
  rw [List.mem_flatten]
  exact ⟨idsOf rg, List.mem_map_of_mem _ h1, List.mem_map_of_mem _ h2⟩

/-! ## Invariant preservation: growing the heap -/

lemma allocateNewRegion_eq (s : AState) (r : Nat) :
    allocateNewRegion s r =
      ⟨s.regions ++
          [⟨s.nextAddr,
            align (targetSize r + BLOCK_HEADER_SIZE) PAGE_SIZE - REGION_HEADER_SIZE,
            [⟨s.nextId, s.nextAddr + REGION_HEADER_SIZE,
              align (targetSize r + BLOCK_HEADER_SIZE) PAGE_SIZE - REGION_HEADER_SIZE
                - BLOCK_HEADER_SIZE, true⟩]⟩],
        s.freeList ++ [s.nextId], s.nextId + 1,
        s.nextAddr + align (targetSize r + BLOCK_HEADER_SIZE) PAGE_SIZE⟩ := rfl

lemma inv_grow (s : AState) (r : Nat) (hr : r ≤ RMAX) (hs : Inv s) :
    Inv (allocateNewRegion s r) := by
  obtain ⟨hna, hly, hms, hfd, ⟨hnd, hlt⟩, hfnd, hfsub⟩ := hs
  obtain ⟨hrs1, hrs2⟩ := regionSize_ge r hr
  rw [allocateNewRegion_eq]
  set RS := align (targetSize r + BLOCK_HEADER_SIZE) PAGE_SIZE with hRS
  have hids : blkIds ⟨s.regions ++
      [⟨s.nextAddr, RS - REGION_HEADER_SIZE,
        [⟨s.nextId, s.nextAddr + REGION_HEADER_SIZE,
          RS - REGION_HEADER_SIZE - BLOCK_HEADER_SIZE, true⟩]⟩],
      s.freeList ++ [s.nextId], s.nextId + 1, s.nextAddr + RS⟩
      = blkIds s ++ [s.nextId] := by
    simp [blkIds, idsOf]
  have hfresh : s.nextId ∉ blkIds s := fun hmem => by
    have := hlt _ hmem
    omega
  constructor
  · intro rg hmem
    rcases List.mem_append.mp hmem with hold | hnew
    · exact hna rg hold
    · rw [List.mem_singleton] at hnew
      subst hnew
      exact List.chain'_singleton _
  · intro rg hmem
    rcases List.mem_append.mp hmem with hold | hnew
    · exact hly rg hold
    · rw [List.mem_singleton] at hnew
      subst hnew
      rw [covers_cons_iff]
      refine ⟨rfl, ?_⟩
      rw [covers_nil_iff]
      show s.nextAddr + REGION_HEADER_SIZE + BLOCK_HEADER_SIZE
          + (RS - REGION_HEADER_SIZE - BLOCK_HEADER_SIZE)
        = s.nextAddr + REGION_HEADER_SIZE + (RS - REGION_HEADER_SIZE)
      unfold REGION_HEADER_SIZE BLOCK_HEADER_SIZE
      omega
  · intro rg hmem b hb
    rcases List.mem_append.mp hmem with hold | hnew
    · exact hms rg hold b hb
    · rw [List.mem_singleton] at hnew
      subst hnew
      rw [List.mem_singleton] at hb
      subst hb
      show MIN_BLOCK_SIZE ≤ RS - REGION_HEADER_SIZE - BLOCK_HEADER_SIZE
      unfold MIN_BLOCK_SIZE REGION_HEADER_SIZE BLOCK_HEADER_SIZE
      omega
  · intro rg hmem b hb
    rcases List.mem_append.mp hmem with hold | hnew
    · have hbid : b.id ∈ blkIds s := mem_blkIds s hold hb
      have hne : b.id ≠ s.nextId := fun hcon => hfresh (hcon ▸ hbid)
      rw [hfd rg hold b hb]
      simp [hne]
    · rw [List.mem_singleton] at hnew
      subst hnew
      rw [List.mem_singleton] at hb
      subst hb
      simp
  · constructor
    · rw [hids]
      rw [List.nodup_append]
      exact ⟨hnd, List.nodup_singleton _, by
        intro a ha hb
        rw [List.mem_singleton] at hb
        subst hb
        exact hfresh ha⟩
    · rw [hids]
      intro bid hmem
      show bid < s.nextId + 1
      rcases List.mem_append.mp hmem with hold | hnew
      · have := hlt _ hold
        omega
      · rw [List.mem_singleton] at hnew
        omega
  · constructor
    · rw [List.nodup_append]
      refine ⟨hfnd, List.nodup_singleton _, ?_⟩
      intro a ha hb
      rw [List.mem_singleton] at hb
      subst hb
      exact hfresh (hfsub ha)
    · rw [hids]
      intro y hy
      rcases List.mem_append.mp hy with hold | hnew
      · exact List.mem_append.mpr (Or.inl (hfsub hold))
      · exact List.mem_append.mpr (Or.inr hnew)

lemma nodup_insert_mid (xs ys : List Nat) (a : Nat)
    (h : (xs ++ ys).Nodup) (ha : a ∉ xs ++ ys) : (xs ++ a :: ys).Nodup := by
  have hperm : List.Perm (xs ++ a :: ys) (a :: (xs ++ ys)) := List.perm_middle
  rw [hperm.nodup_iff]
  exact List.nodup_cons.mpr ⟨ha, h⟩

/-- Replacing the blocks of one region: the unchanged-region components of
the invariant only need the new free index to stay faithful for them. -/
lemma inv_set_region (s : AState) (i : Nat) (rg : Rgn) (nbs : List Blk)
    (nfl : List Nat) (nid naddr : Nat)
    (h1 : s.regions[i]? = some rg) (hs : Inv s)
    (hA : List.Chain' okPair nbs)
    (hB : covers (rg.addr + REGION_HEADER_SIZE) nbs
      (rg.addr + REGION_HEADER_SIZE + rg.size) = true)
    (hC : ∀ x ∈ nbs, MIN_BLOCK_SIZE ≤ x.size)
    (hD : ∀ x ∈ nbs, (x.is_free = true ↔ x.id ∈ nfl))
    (hE : ∀ rg2 ∈ s.regions.take i ++ s.regions.drop (i + 1), ∀ x ∈ rg2.blocks,
      (x.is_free = true ↔ x.id ∈ nfl))
    (hF : GoodIds ⟨s.regions.set i ⟨rg.addr, rg.size, nbs⟩, nfl, nid, naddr⟩)
    (hG : GoodFree ⟨s.regions.set i ⟨rg.addr, rg.size, nbs⟩, nfl, nid, naddr⟩) :
    Inv ⟨s.regions.set i ⟨rg.addr, rg.size, nbs⟩, nfl, nid, naddr⟩ := by
  obtain ⟨hPQ, hPlen⟩ := decomp_of_get h1
  have hset : s.regions.set i ⟨rg.addr, rg.size, nbs⟩
      = s.regions.take i ++ ⟨rg.addr, rg.size, nbs⟩ :: s.regions.drop (i + 1) := by
    have hmid := set_mid (s.regions.take i) rg
      (⟨rg.addr, rg.size, nbs⟩ : Rgn) (s.regions.drop (i + 1))
    rw [hPlen] at hmid
    rw [← hPQ] at hmid
    exact hmid
  have hmem_split : ∀ rg2, rg2 ∈ s.regions.set i ⟨rg.addr, rg.size, nbs⟩ →
      rg2 = ⟨rg.addr, rg.size, nbs⟩ ∨
        rg2 ∈ s.regions.take i ++ s.regions.drop (i + 1) := by
    intro rg2 hm
    rw [hset] at hm
    rcases List.mem_append.mp hm with h | h
    · exact Or.inr (List.mem_append.mpr (Or.inl h))
    · rcases List.mem_cons.mp h with h | h
      · exact Or.inl h
      · exact Or.inr (List.mem_append.mpr (Or.inr h))
  have hmem_old : ∀ rg2, rg2 ∈ s.regions.take i ++ s.regions.drop (i + 1) →
      rg2 ∈ s.regions := by
    intro rg2 hm
    rcases List.mem_append.mp hm with h | h
    · exact (List.take_sublist _ _).subset h
    · exact (List.drop_sublist _ _).subset h
  constructor
  · intro rg2 hm
    rcases hmem_split rg2 hm with rfl | h
    · exact hA
    · exact hs.noadj rg2 (hmem_old rg2 h)
  · intro rg2 hm
    rcases hmem_split rg2 hm with rfl | h
    · exact hB
    · exact hs.layout rg2 (hmem_old rg2 h)
  · intro rg2 hm
    rcases hmem_split rg2 hm with rfl | h
    · exact hC
    · exact hs.minsz rg2 (hmem_old rg2 h)
  · intro rg2 hm
    rcases hmem_split rg2 hm with rfl | h
    · exact hD
    · exact hE rg2 h
  · exact hF
  · exact hG

/-! ## Behaviour of take_from_block -/

/-- take_from_block, split case: the block is shrunk, the tail becomes a
new indexed free block, the block leaves the index and is marked used. -/
lemma takeFromBlock_split (s : AState) (i j r : Nat) (rg : Rgn) (b : Blk)
    (h1 : s.regions[i]? = some rg) (h2 : rg.blocks[j]? = some b)
    (hsp : align (BLOCK_HEADER_SIZE + max (align r WORD) MIN_BLOCK_SIZE) WORD
      + BLOCK_HEADER_SIZE + MIN_BLOCK_SIZE ≤ b.size + BLOCK_HEADER_SIZE) :
    takeFromBlock s i j r =
      ⟨⟨s.regions.set i ⟨rg.addr, rg.size,
          rg.blocks.take j
            ++ ⟨b.id, b.addr,
                 align (BLOCK_HEADER_SIZE + max (align r WORD) MIN_BLOCK_SIZE) WORD
                   - BLOCK_HEADER_SIZE, false⟩
            :: ⟨s.nextId,
                 b.addr + align (BLOCK_HEADER_SIZE + max (align r WORD) MIN_BLOCK_SIZE) WORD,
                 b.size + BLOCK_HEADER_SIZE
                   - align (BLOCK_HEADER_SIZE + max (align r WORD) MIN_BLOCK_SIZE) WORD
                   - BLOCK_HEADER_SIZE, true⟩
            :: rg.blocks.drop (j + 1)⟩,
        s.freeList.erase b.id ++ [s.nextId], s.nextId + 1, s.nextAddr⟩,
       b.addr + BLOCK_HEADER_SIZE⟩ := by
  simp only [takeFromBlock, h1, h2]
  rw [if_pos hsp]
  rfl

/-- take_from_block, no-split case: the block keeps its payload, leaves
the index and is marked used. -/
lemma takeFromBlock_whole (s : AState) (i j r : Nat) (rg : Rgn) (b : Blk)
    (h1 : s.regions[i]? = some rg) (h2 : rg.blocks[j]? = some b)
    (hsp : b.size + BLOCK_HEADER_SIZE <
      align (BLOCK_HEADER_SIZE + max (align r WORD) MIN_BLOCK_SIZE) WORD
        + BLOCK_HEADER_SIZE + MIN_BLOCK_SIZE) :
    takeFromBlock s i j r =
      ⟨⟨s.regions.set i ⟨rg.addr, rg.size,
          rg.blocks.set j ⟨b.id, b.addr, b.size, false⟩⟩,
        s.freeList.erase b.id, s.nextId, s.nextAddr⟩,
       b.addr + BLOCK_HEADER_SIZE⟩ := by
  simp only [takeFromBlock, h1, h2]
  rw [if_neg (by omega)]
  rfl

/-! ## Invariant preservation: taking a block -/

lemma inv_take (s : AState) (i j r : Nat) (rg : Rgn) (b : Blk)
    (h1 : s.regions[i]? = some rg) (h2 : rg.blocks[j]? = some b)
    (hbf : b.is_free = true) (hr : r ≤ RMAX) (hs : Inv s) :
    Inv (takeFromBlock s i j r).state := by
  have hBH : BLOCK_HEADER_SIZE = 40 := rfl
  have hMIN : MIN_BLOCK_SIZE = 24 := rfl
  have hso_ge : BLOCK_HEADER_SIZE + max (align r WORD) MIN_BLOCK_SIZE
      ≤ align (BLOCK_HEADER_SIZE + max (align r WORD) MIN_BLOCK_SIZE) WORD :=
    splitOffset_ge r hr
  have htgt : MIN_BLOCK_SIZE ≤ max (align r WORD) MIN_BLOCK_SIZE := le_max_right _ _
  obtain ⟨hPQ, hPlen⟩ := decomp_of_get h1
  obtain ⟨hLR, hLlen⟩ := decomp_of_get h2
  have hrg_mem : rg ∈ s.regions := by
    rw [hPQ]
    exact List.mem_append_right _ (List.mem_cons_self _ _)
  have hb_mem : b ∈ rg.blocks := by
    rw [hLR]
    exact List.mem_append_right _ (List.mem_cons_self _ _)
  have hbid_fl : b.id ∈ s.freeList := (hs.fid rg hrg_mem b hb_mem).mp hbf
  have hbid_ids : b.id ∈ blkIds s := mem_blkIds s hrg_mem hb_mem
  have hfresh : ∀ bid ∈ blkIds s, bid ≠ s.nextId := by
    intro bid hm hc
    have := hs.gids.2 bid hm
    omega
  -- chain facts for the region being modified
  have hchain := hs.noadj rg hrg_mem
  rw [hLR, List.chain'_append, List.chain'_cons'] at hchain
  obtain ⟨hcL, ⟨hbR, hcR⟩, hlink⟩ := hchain
  have hRhead : ∀ y ∈ (rg.blocks.drop (j + 1)).head?, y.is_free = false :=
    fun y hy => not_free_of_okPair_left hbf (hbR y hy)
  -- covers facts for the region being modified
  have hcov := hs.layout rg hrg_mem
  rw [hLR] at hcov
  rw [covers_append_iff] at hcov
  obtain ⟨m, hcovL, hcovbr⟩ := hcov
  rw [covers_cons_iff] at hcovbr
  obtain ⟨hbaddr, hcovR⟩ := hcovbr
  -- identity bookkeeping
  have hidsrg : idsOf rg = (rg.blocks.take j).map Blk.id
      ++ b.id :: (rg.blocks.drop (j + 1)).map Blk.id := by
    unfold idsOf
    conv_lhs => rw [hLR]
    simp
  have hnd_grouped : (((s.regions.take i).map idsOf).flatten
      ++ (idsOf rg ++ ((s.regions.drop (i + 1)).map idsOf).flatten)).Nodup := by
    have he : blkIds s = ((s.regions.take i).map idsOf).flatten
        ++ (idsOf rg ++ ((s.regions.drop (i + 1)).map idsOf).flatten) := by
      unfold blkIds
      conv_lhs => rw [hPQ]
      simp
    rw [← he]
    exact hs.gids.1
  obtain ⟨hndP, hndMQ, hdisjP⟩ := List.nodup_append.mp hnd_grouped
  obtain ⟨hndM, hndQ, hdisjMQ⟩ := List.nodup_append.mp hndMQ
  have hbid_mid : b.id ∈ idsOf rg := List.mem_map_of_mem _ hb_mem
  have hndM2 := hndM
  rw [hidsrg] at hndM2
  obtain ⟨hndL, hndbR, hdisjLbR⟩ := List.nodup_append.mp hndM2
  obtain ⟨hbnotR, hndR⟩ := List.nodup_cons.mp hndbR
  have f1 : ∀ x ∈ rg.blocks.take j, x.id ≠ b.id := by
    intro x hx hcon
    exact hdisjLbR (List.mem_map_of_mem _ hx)
      (by rw [hcon]; exact List.mem_cons_self _ _)
  have f2 : ∀ x ∈ rg.blocks.drop (j + 1), x.id ≠ b.id := by
    intro x hx hcon
    exact hbnotR (by rw [← hcon]; exact List.mem_map_of_mem _ hx)
  have f3 : ∀ rg2 ∈ s.regions.take i ++ s.regions.drop (i + 1),
      ∀ x ∈ rg2.blocks, x.id ≠ b.id := by
    intro rg2 hm x hx hcon
    rcases List.mem_append.mp hm with hmP | hmQ
    · exact hdisjP (mem_flat_ids hmP hx)
        (List.mem_append.mpr (Or.inl (by rw [hcon]; exact hbid_mid)))
    · exact hdisjMQ (by rw [hcon]; exact hbid_mid) (mem_flat_ids hmQ hx)
  by_cases hsplit : align (BLOCK_HEADER_SIZE + max (align r WORD) MIN_BLOCK_SIZE) WORD
      + BLOCK_HEADER_SIZE + MIN_BLOCK_SIZE ≤ b.size + BLOCK_HEADER_SIZE
  · -- split case
    rw [takeFromBlock_split s i j r rg b h1 h2 hsplit]
    set so := align (BLOCK_HEADER_SIZE + max (align r WORD) MIN_BLOCK_SIZE) WORD with hso_def
    set nfl := s.freeList.erase b.id ++ [s.nextId] with hnfl_def
    set b1 : Blk := ⟨b.id, b.addr, so - BLOCK_HEADER_SIZE, false⟩ with hb1_def
    set nb : Blk := ⟨s.nextId, b.addr + so,
      b.size + BLOCK_HEADER_SIZE - so - BLOCK_HEADER_SIZE, true⟩ with hnb_def
    have hbid_nfl : b.id ∉ nfl := by
      rw [hnfl_def, List.mem_append, List.mem_singleton]
      rintro (h | h)
      · exact hs.gfree.1.not_mem_erase h
      · exact hfresh b.id hbid_ids h
    have hnid_nfl : s.nextId ∈ nfl := by
      rw [hnfl_def]
      simp
    have hflmem : ∀ y, y ≠ b.id → y ≠ s.nextId → (y ∈ nfl ↔ y ∈ s.freeList) := by
      intro y hy1 hy2
      rw [hnfl_def, List.mem_append, List.mem_singleton,
        List.mem_erase_of_ne hy1]
      simp [hy2]
    have hids_old : blkIds s
        = (((s.regions.take i).map idsOf).flatten
            ++ ((rg.blocks.take j).map Blk.id ++ [b.id]))
          ++ ((rg.blocks.drop (j + 1)).map Blk.id
            ++ ((s.regions.drop (i + 1)).map idsOf).flatten) := by
      unfold blkIds
      conv_lhs => rw [hPQ]
      simp [hidsrg]
    have hset2 : s.regions.set i
        (⟨rg.addr, rg.size, rg.blocks.take j ++ b1 :: nb :: rg.blocks.drop (j + 1)⟩ : Rgn)
        = s.regions.take i
          ++ ⟨rg.addr, rg.size, rg.blocks.take j ++ b1 :: nb :: rg.blocks.drop (j + 1)⟩
          :: s.regions.drop (i + 1) := by
      have hmid := set_mid (s.regions.take i) rg
        (⟨rg.addr, rg.size, rg.blocks.take j ++ b1 :: nb :: rg.blocks.drop (j + 1)⟩ : Rgn)
        (s.regions.drop (i + 1))
      rw [hPlen] at hmid
      rw [← hPQ] at hmid
      exact hmid
    have hids_new : blkIds ⟨s.regions.set i
        ⟨rg.addr, rg.size, rg.blocks.take j ++ b1 :: nb :: rg.blocks.drop (j + 1)⟩,
        nfl, s.nextId + 1, s.nextAddr⟩
        = (((s.regions.take i).map idsOf).flatten
            ++ ((rg.blocks.take j).map Blk.id ++ [b.id]))
          ++ s.nextId :: ((rg.blocks.drop (j + 1)).map Blk.id
            ++ ((s.regions.drop (i + 1)).map idsOf).flatten) := by
      unfold blkIds
      rw [hset2]
      simp [idsOf, hb1_def, hnb_def]
    have hmem_transfer : ∀ y, y ∈ blkIds ⟨s.regions.set i
        ⟨rg.addr, rg.size, rg.blocks.take j ++ b1 :: nb :: rg.blocks.drop (j + 1)⟩,
        nfl, s.nextId + 1, s.nextAddr⟩ ↔ (y ∈ blkIds s ∨ y = s.nextId) := by
      intro y
      rw [hids_new, hids_old]
      simp only [List.mem_append, List.mem_cons, List.mem_singleton]
      tauto
    apply inv_set_region s i rg _ nfl (s.nextId + 1) s.nextAddr h1 hs
    · -- chain
      rw [List.chain'_append]
      refine ⟨hcL, ?_, ?_⟩
      · rw [List.chain'_cons]
        refine ⟨okPair_of_left nb rfl, ?_⟩
        rw [List.chain'_cons']
        refine ⟨fun y hy => okPair_of_right nb (hRhead y hy), hcR⟩
      · intro x hx y hy
        rw [List.head?_cons, Option.mem_some_iff] at hy
        subst hy
        exact okPair_of_right x rfl
    · -- covers
      rw [covers_append_iff]
      refine ⟨m, hcovL, ?_⟩
      rw [covers_cons_iff]
      refine ⟨hbaddr, ?_⟩
      rw [covers_cons_iff]
      constructor
      · show b.addr + so = m + BLOCK_HEADER_SIZE + (so - BLOCK_HEADER_SIZE)
        rw [hbaddr] at *
        omega
      · have harith : m + BLOCK_HEADER_SIZE + (so - BLOCK_HEADER_SIZE)
            + BLOCK_HEADER_SIZE
            + (b.size + BLOCK_HEADER_SIZE - so - BLOCK_HEADER_SIZE)
            = m + BLOCK_HEADER_SIZE + b.size := by
          omega
        rw [harith]
        exact hcovR
    · -- sizes
      intro x hx
      rcases List.mem_append.mp hx with hxL | hxM
      · exact hs.minsz rg hrg_mem x
          (by rw [hLR]; exact List.mem_append_left _ hxL)
      · rcases List.mem_cons.mp hxM with rfl | hxM2
        · show MIN_BLOCK_SIZE ≤ so - BLOCK_HEADER_SIZE
          omega
        · rcases List.mem_cons.mp hxM2 with rfl | hxR
          · show MIN_BLOCK_SIZE ≤ b.size + BLOCK_HEADER_SIZE - so - BLOCK_HEADER_SIZE
            omega
          · exact hs.minsz rg hrg_mem x
              (by rw [hLR]
                  exact List.mem_append_right _ (List.mem_cons_of_mem _ hxR))
    · -- fidelity for the new region
      intro x hx
      rcases List.mem_append.mp hx with hxL | hxM
      · have hxold : x ∈ rg.blocks := by
          rw [hLR]
          exact List.mem_append_left _ hxL
        rw [hflmem x.id (f1 x hxL) (hfresh _ (mem_blkIds s hrg_mem hxold))]
        exact hs.fid rg hrg_mem x hxold
      · rcases List.mem_cons.mp hxM with rfl | hxM2
        · simp [hb1_def, hbid_nfl]
        · rcases List.mem_cons.mp hxM2 with rfl | hxR
          · simp [hnb_def, hnid_nfl]
          · have hxold : x ∈ rg.blocks := by
              rw [hLR]
              exact List.mem_append_right _ (List.mem_cons_of_mem _ hxR)
            rw [hflmem x.id (f2 x hxR) (hfresh _ (mem_blkIds s hrg_mem hxold))]
            exact hs.fid rg hrg_mem x hxold
    · -- fidelity for the other regions
      intro rg2 hm x hx
      have hrg2old : rg2 ∈ s.regions := mem_of_mem_take_drop rg2 hm
      have hxids : x.id ∈ blkIds s := mem_blkIds s hrg2old hx
      rw [hflmem x.id (f3 rg2 hm x hx) (hfresh _ hxids)]
      exact hs.fid rg2 hrg2old x hx
    · -- good ids
      constructor
      · rw [hids_new]
        apply nodup_insert_mid
        · rw [← hids_old]
          exact hs.gids.1
        · rw [← hids_old]
          intro hm
          exact hfresh _ hm rfl
      · intro bid hm
        show bid < s.nextId + 1
        rw [hmem_transfer bid] at hm
        rcases hm with hm | rfl
        · have := hs.gids.2 bid hm
          omega
        · omega
    · -- good free list
      constructor
      · rw [hnfl_def, List.nodup_append]
        refine ⟨hs.gfree.1.erase _, List.nodup_singleton _, ?_⟩
        intro a ha hb2
        rw [List.mem_singleton] at hb2
        subst hb2
        exact hfresh _ (hs.gfree.2 (List.mem_of_mem_erase ha)) rfl
      · intro y hy
        rw [hmem_transfer y]
        rw [hnfl_def, List.mem_append, List.mem_singleton] at hy
        rcases hy with hy | rfl
        · exact Or.inl (hs.gfree.2 (List.mem_of_mem_erase hy))
        · exact Or.inr rfl
  · -- no-split case
    push_neg at hsplit
    rw [takeFromBlock_whole s i j r rg b h1 h2 hsplit]
    set nfl := s.freeList.erase b.id with hnfl_def
    set b1 : Blk := ⟨b.id, b.addr, b.size, false⟩ with hb1_def
    have hbid_nfl : b.id ∉ nfl := hs.gfree.1.not_mem_erase
    have hflmem : ∀ y, y ≠ b.id → (y ∈ nfl ↔ y ∈ s.freeList) := by
      intro y hy1
      rw [hnfl_def, List.mem_erase_of_ne hy1]
    have hsetb : rg.blocks.set j b1
        = rg.blocks.take j ++ b1 :: rg.blocks.drop (j + 1) := by
      have hmid := set_mid (rg.blocks.take j) b b1 (rg.blocks.drop (j + 1))
      rw [hLlen] at hmid
      rw [← hLR] at hmid
      exact hmid
    have hset2 : s.regions.set i (⟨rg.addr, rg.size, rg.blocks.set j b1⟩ : Rgn)
        = s.regions.take i
          ++ ⟨rg.addr, rg.size, rg.blocks.set j b1⟩ :: s.regions.drop (i + 1) := by
      have hmid := set_mid (s.regions.take i) rg
        (⟨rg.addr, rg.size, rg.blocks.set j b1⟩ : Rgn) (s.regions.drop (i + 1))
      rw [hPlen] at hmid
      rw [← hPQ] at hmid
      exact hmid
    have hids_new : blkIds ⟨s.regions.set i ⟨rg.addr, rg.size, rg.blocks.set j b1⟩,
        nfl, s.nextId, s.nextAddr⟩ = blkIds s := by
      unfold blkIds
      rw [hset2]
      conv_rhs => rw [hPQ]
      rw [hsetb]
      simp only [List.map_append, List.map_cons, List.flatten_append,
        List.flatten_cons, idsOf, hb1_def]
      conv_rhs => rw [hLR]
      simp
    apply inv_set_region s i rg _ nfl s.nextId s.nextAddr h1 hs
    · -- chain
      rw [hsetb, List.chain'_append, List.chain'_cons']
      refine ⟨hcL, ⟨fun y hy => okPair_of_left y rfl, hcR⟩, ?_⟩
      · intro x hx y hy
        rw [List.head?_cons, Option.mem_some_iff] at hy
        subst hy
        exact okPair_of_right x rfl
    · -- covers
      rw [hsetb, covers_append_iff]
      refine ⟨m, hcovL, ?_⟩
      rw [covers_cons_iff]
      exact ⟨hbaddr, hcovR⟩
    · -- sizes
      intro x hx
      rw [hsetb] at hx
      rcases List.mem_append.mp hx with hxL | hxM
      · exact hs.minsz rg hrg_mem x
          (by rw [hLR]; exact List.mem_append_left _ hxL)
      · rcases List.mem_cons.mp hxM with rfl | hxR
        · show MIN_BLOCK_SIZE ≤ b.size
          exact hs.minsz rg hrg_mem b hb_mem
        · exact hs.minsz rg hrg_mem x
            (by rw [hLR]
                exact List.mem_append_right _ (List.mem_cons_of_mem _ hxR))
    · -- fidelity for the new region
      intro x hx
      rw [hsetb] at hx
      rcases List.mem_append.mp hx with hxL | hxM
      · have hxold : x ∈ rg.blocks := by
          rw [hLR]
          exact List.mem_append_left _ hxL
        rw [hflmem x.id (f1 x hxL)]
        exact hs.fid rg hrg_mem x hxold
      · rcases List.mem_cons.mp hxM with rfl | hxR
        · simp [hb1_def, hbid_nfl]
        · have hxold : x ∈ rg.blocks := by
            rw [hLR]
            exact List.mem_append_right _ (List.mem_cons_of_mem _ hxR)
          rw [hflmem x.id (f2 x hxR)]
          exact hs.fid rg hrg_mem x hxold
    · -- fidelity for the other regions
      intro rg2 hm x hx
      have hrg2old : rg2 ∈ s.regions := mem_of_mem_take_drop rg2 hm
      rw [hflmem x.id (f3 rg2 hm x hx)]
      exact hs.fid rg2 hrg2old x hx
    · -- good ids
      constructor
      · rw [hids_new]
        exact hs.gids.1
      · intro bid hm
        rw [hids_new] at hm
        show bid < s.nextId
        exact hs.gids.2 bid hm
    · -- good free list
      constructor
      · exact hs.gfree.1.erase _
      · intro y hy
        rw [hids_new]
        exact hs.gfree.2 (List.mem_of_mem_erase hy)

/-! ## Invariant preservation: deallocation endgame -/

/-- After the merges of a deallocation the region's block list is
LA ++ cur :: RB with cur the freed (and possibly enlarged) block; this
lemma carries any such shape through check_region_removal. -/
lemma dealloc_endgame (s : AState) (i : Nat) (rg : Rgn)
    (LA : List Blk) (cur : Blk) (RB : List Blk) (flA : List Nat)
    (h1 : s.regions[i]? = some rg) (hs : Inv s)
    (hAch : List.Chain' okPair LA) (hBch : List.Chain' okPair RB)
    (hlastA : ∀ x ∈ LA.getLast?, x.is_free = false)
    (hheadB : ∀ y ∈ RB.head?, y.is_free = false)
    (hcurfree : cur.is_free = true)
    (hcov : covers (rg.addr + REGION_HEADER_SIZE) (LA ++ cur :: RB)
      (rg.addr + REGION_HEADER_SIZE + rg.size) = true)
    (hsz : MIN_BLOCK_SIZE ≤ cur.size)
    (hsurv : ∀ x ∈ LA ++ RB, x ∈ rg.blocks ∧ x.id ≠ cur.id)
    (hsub : ((LA ++ cur :: RB).map Blk.id).Sublist (rg.blocks.map Blk.id))
    (hfidA : ∀ x ∈ LA ++ RB, (x.is_free = true ↔ x.id ∈ flA))
    (hfidO : ∀ rg2 ∈ s.regions.take i ++ s.regions.drop (i + 1),
      ∀ x ∈ rg2.blocks, (x.is_free = true ↔ x.id ∈ flA))
    (hcurNot : cur.id ∉ flA)
    (hcurIds : cur.id ∈ idsOf rg)
    (hflnd : flA.Nodup) (hflsub : flA ⊆ s.freeList)
    (hflrg : ∀ y ∈ flA, y ∈ idsOf rg → y ∈ (LA ++ RB).map Blk.id) :
    Inv (checkRegionRemoval
      ⟨s.regions.set i ⟨rg.addr, rg.size, LA ++ cur :: RB⟩, flA, s.nextId, s.nextAddr⟩
      i cur.id) := by
  obtain ⟨hPQ, hPlen⟩ := decomp_of_get h1
  have hi : i < s.regions.length := by
    rcases List.getElem?_eq_some_iff.mp h1 with ⟨hlt, _⟩
    exact hlt
  have hrg_mem : rg ∈ s.regions := by
    rw [hPQ]
    exact List.mem_append_right _ (List.mem_cons_self _ _)
  have hfresh : ∀ bid ∈ blkIds s, bid < s.nextId := hs.gids.2
  have hset : s.regions.set i (⟨rg.addr, rg.size, LA ++ cur :: RB⟩ : Rgn)
      = s.regions.take i
        ++ ⟨rg.addr, rg.size, LA ++ cur :: RB⟩ :: s.regions.drop (i + 1) := by
    have hmid := set_mid (s.regions.take i) rg
      (⟨rg.addr, rg.size, LA ++ cur :: RB⟩ : Rgn) (s.regions.drop (i + 1))
    rw [hPlen] at hmid
    rw [← hPQ] at hmid
    exact hmid
  have hids_s : blkIds s = ((s.regions.take i).map idsOf).flatten
      ++ (idsOf rg ++ ((s.regions.drop (i + 1)).map idsOf).flatten) := by
    unfold blkIds
    conv_lhs => rw [hPQ]
    simp
  have hnd_grouped : (((s.regions.take i).map idsOf).flatten
      ++ (idsOf rg ++ ((s.regions.drop (i + 1)).map idsOf).flatten)).Nodup := by
    rw [← hids_s]
    exact hs.gids.1
  obtain ⟨hndP, hndMQ, hdisjP⟩ := List.nodup_append.mp hnd_grouped
  obtain ⟨hndM, hndQ, hdisjMQ⟩ := List.nodup_append.mp hndMQ
  have hcur_ne_other : ∀ rg2 ∈ s.regions.take i ++ s.regions.drop (i + 1),
      ∀ x ∈ rg2.blocks, x.id ≠ cur.id := by
    intro rg2 hm x hx hcon
    rcases List.mem_append.mp hm with hmP | hmQ
    · exact hdisjP (mem_flat_ids hmP hx)
        (List.mem_append.mpr (Or.inl (by rw [hcon]; exact hcurIds)))
    · exact hdisjMQ (by rw [hcon]; exact hcurIds) (mem_flat_ids hmQ hx)
  have hsub' : ((LA ++ cur :: RB).map Blk.id).Sublist (idsOf rg) := hsub
  have hget : (⟨s.regions.set i ⟨rg.addr, rg.size, LA ++ cur :: RB⟩, flA,
      s.nextId, s.nextAddr⟩ : AState).regions[i]? =
      some ⟨rg.addr, rg.size, LA ++ cur :: RB⟩ :=
    List.getElem?_set_self hi
  by_cases hone : (⟨rg.addr, rg.size, LA ++ cur :: RB⟩ : Rgn).blocks.length = 1
  · -- the region is left with a single block: it is unmapped
    have hLAnil : LA = [] := by
      have := hone
      simp at this
      exact List.length_eq_zero.mp (by omega)
    have hRBnil : RB = [] := by
      have := hone
      simp at this
      exact List.length_eq_zero.mp (by omega)
    subst hLAnil
    subst hRBnil
    rw [checkRegionRemoval_one _ i cur.id _ hget hone]
    have herase_fl : flA.erase cur.id = flA := List.erase_of_not_mem hcurNot
    have heraseIdx : (s.regions.set i
        (⟨rg.addr, rg.size, [] ++ cur :: []⟩ : Rgn)).eraseIdx i
        = s.regions.take i ++ s.regions.drop (i + 1) := by
      rw [hset]
      have hmid := eraseIdx_mid (s.regions.take i)
        (⟨rg.addr, rg.size, [] ++ cur :: []⟩ : Rgn) (s.regions.drop (i + 1))
      rw [hPlen] at hmid
      exact hmid
    have hids_fin : blkIds ⟨(s.regions.set i
        (⟨rg.addr, rg.size, [] ++ cur :: []⟩ : Rgn)).eraseIdx i,
        flA.erase cur.id, s.nextId, s.nextAddr⟩
        = ((s.regions.take i).map idsOf).flatten
          ++ ((s.regions.drop (i + 1)).map idsOf).flatten := by
      unfold blkIds
      rw [heraseIdx]
      simp
    have hmem_old2 : ∀ rg2 ∈ s.regions.take i ++ s.regions.drop (i + 1),
        rg2 ∈ s.regions := fun rg2 hm => mem_of_mem_take_drop rg2 hm
    constructor
    · intro rg2 hm
      rw [heraseIdx] at hm
      exact hs.noadj rg2 (hmem_old2 rg2 hm)
    · intro rg2 hm
      rw [heraseIdx] at hm
      exact hs.layout rg2 (hmem_old2 rg2 hm)
    · intro rg2 hm
      rw [heraseIdx] at hm
      exact hs.minsz rg2 (hmem_old2 rg2 hm)
    · intro rg2 hm
      rw [heraseIdx] at hm
      intro x hx
      rw [herase_fl]
      exact hfidO rg2 hm x hx
    · constructor
      · rw [hids_fin]
        have hsubl : (((s.regions.take i).map idsOf).flatten
            ++ ((s.regions.drop (i + 1)).map idsOf).flatten).Sublist
            (((s.regions.take i).map idsOf).flatten
              ++ (idsOf rg ++ ((s.regions.drop (i + 1)).map idsOf).flatten)) :=
          List.Sublist.append_left (List.sublist_append_right _ _) _
        exact hsubl.nodup hnd_grouped
      · intro bid hm
        rw [hids_fin] at hm
        show bid < s.nextId
        apply hfresh
        rw [hids_s]
        rcases List.mem_append.mp hm with h | h
        · exact List.mem_append.mpr (Or.inl h)
        · exact List.mem_append.mpr (Or.inr (List.mem_append.mpr (Or.inr h)))
    · constructor
      · rw [herase_fl]
        exact hflnd
      · intro y hy
        rw [herase_fl] at hy
        rw [hids_fin]
        have hyids : y ∈ blkIds s := hs.gfree.2 (hflsub hy)
        rw [hids_s] at hyids
        rcases List.mem_append.mp hyids with h | h
        · exact List.mem_append.mpr (Or.inl h)
        · rcases List.mem_append.mp h with h | h
          · exact absurd (hflrg y hy h) (by simp)
          · exact List.mem_append.mpr (Or.inr h)
  · -- the region keeps several blocks: the block is reindexed
    rw [checkRegionRemoval_many _ i cur.id _ hget hone]
    have herase_fl : flA.erase cur.id = flA := List.erase_of_not_mem hcurNot
    rw [herase_fl]
    have hids_fin : blkIds ⟨s.regions.set i ⟨rg.addr, rg.size, LA ++ cur :: RB⟩,
        flA ++ [cur.id], s.nextId, s.nextAddr⟩
        = ((s.regions.take i).map idsOf).flatten
          ++ (((LA ++ cur :: RB).map Blk.id)
            ++ ((s.regions.drop (i + 1)).map idsOf).flatten) := by
      unfold blkIds
      rw [hset]
      simp [idsOf]
    apply inv_set_region s i rg (LA ++ cur :: RB) (flA ++ [cur.id])
      s.nextId s.nextAddr h1 hs
    · rw [List.chain'_append]
      refine ⟨hAch, ?_, ?_⟩
      · rw [List.chain'_cons']
        exact ⟨fun y hy => okPair_of_right cur (hheadB y hy), hBch⟩
      · intro x hx y hy
        rw [List.head?_cons, Option.mem_some_iff] at hy
        subst hy
        exact okPair_of_left cur (hlastA x hx)
    · exact hcov
    · intro x hx
      rcases List.mem_append.mp hx with hxL | hxM
      · exact hs.minsz rg hrg_mem x
          (hsurv x (List.mem_append.mpr (Or.inl hxL))).1
      · rcases List.mem_cons.mp hxM with rfl | hxR
        · exact hsz
        · exact hs.minsz rg hrg_mem x
            (hsurv x (List.mem_append.mpr (Or.inr hxR))).1
    · intro x hx
      rcases List.mem_append.mp hx with hxL | hxM
      · have hx' : x ∈ LA ++ RB := List.mem_append.mpr (Or.inl hxL)
        rw [List.mem_append, List.mem_singleton]
        rw [show (x.id ∈ flA ∨ x.id = cur.id) ↔ x.id ∈ flA from
          ⟨fun h => h.resolve_right (hsurv x hx').2, Or.inl⟩]
        exact hfidA x hx'
      · rcases List.mem_cons.mp hxM with rfl | hxR
        · simp [hcurfree]
        · have hx' : x ∈ LA ++ RB := List.mem_append.mpr (Or.inr hxR)
          rw [List.mem_append, List.mem_singleton]
          rw [show (x.id ∈ flA ∨ x.id = cur.id) ↔ x.id ∈ flA from
            ⟨fun h => h.resolve_right (hsurv x hx').2, Or.inl⟩]
          exact hfidA x hx'
    · intro rg2 hm x hx
      rw [List.mem_append, List.mem_singleton]
      rw [show (x.id ∈ flA ∨ x.id = cur.id) ↔ x.id ∈ flA from
        ⟨fun h => h.resolve_right (hcur_ne_other rg2 hm x hx), Or.inl⟩]
      exact hfidO rg2 hm x hx
    · constructor
      · rw [hids_fin]
        have hsubl : (((s.regions.take i).map idsOf).flatten
            ++ (((LA ++ cur :: RB).map Blk.id)
              ++ ((s.regions.drop (i + 1)).map idsOf).flatten)).Sublist
            (((s.regions.take i).map idsOf).flatten
              ++ (idsOf rg ++ ((s.regions.drop (i + 1)).map idsOf).flatten)) :=
          List.Sublist.append_left (List.Sublist.append hsub' (List.Sublist.refl _)) _
        exact hsubl.nodup hnd_grouped
      · intro bid hm
        rw [hids_fin] at hm
        show bid < s.nextId
        apply hfresh
        rw [hids_s]
        rcases List.mem_append.mp hm with h | h
        · exact List.mem_append.mpr (Or.inl h)
        · rcases List.mem_append.mp h with h | h
          · exact List.mem_append.mpr (Or.inr (List.mem_append.mpr
              (Or.inl (hsub'.subset h))))
          · exact List.mem_append.mpr (Or.inr (List.mem_append.mpr (Or.inr h)))
    · constructor
      · rw [List.nodup_append]
        refine ⟨hflnd, List.nodup_singleton _, ?_⟩
        intro a ha hb2
        rw [List.mem_singleton] at hb2
        subst hb2
        exact hcurNot ha
      · intro y hy
        rw [hids_fin]
        rcases List.mem_append.mp hy with hy | hy
        · have hyids : y ∈ blkIds s := hs.gfree.2 (hflsub hy)
          rw [hids_s] at hyids
          rcases List.mem_append.mp hyids with h | h
          · exact List.mem_append.mpr (Or.inl h)
          · rcases List.mem_append.mp h with h | h
            · have hmem2 := hflrg y hy h
              refine List.mem_append.mpr (Or.inr (List.mem_append.mpr (Or.inl ?_)))
              rw [List.map_append] at hmem2
              rcases List.mem_append.mp hmem2 with h2 | h2
              · rw [List.map_append]
                exact List.mem_append.mpr (Or.inl h2)
              · rw [List.map_append]
                exact List.mem_append.mpr (Or.inr (List.mem_cons_of_mem _ h2))
            · exact List.mem_append.mpr (Or.inr (List.mem_append.mpr (Or.inr h)))
        · rw [List.mem_singleton] at hy
          subst hy
          refine List.mem_append.mpr (Or.inr (List.mem_append.mpr (Or.inl ?_)))
          rw [List.map_append]
          exact List.mem_append.mpr (Or.inr (by simp))

/-! ## Invariant preservation: deallocation -/

lemma inv_dealloc (s : AState) (p : Option (Nat × Nat)) (hs : Inv s) :
    Inv (deallocOp s p) := by
  cases p with
  | none => exact hs
  | some ij =>
    obtain ⟨i, j⟩ := ij
    cases h1 : s.regions[i]? with
    | none =>
      have hid : deallocOp s (some (i, j)) = s := by simp [deallocOp, h1]
      rw [hid]
      exact hs
    | some rg =>
      cases h2 : rg.blocks[j]? with
      | none =>
        have hid : deallocOp s (some (i, j)) = s := by simp [deallocOp, h1, h2]
        rw [hid]
        exact hs
      | some b =>
        cases hbf : b.is_free with
        | true =>
          have hid : deallocOp s (some (i, j)) = s := by simp [deallocOp, h1, h2, hbf]
          rw [hid]
          exact hs
        | false =>
          obtain ⟨L, R, hLR, hLlen⟩ :
              ∃ L R, rg.blocks = L ++ b :: R ∧ L.length = j :=
            ⟨rg.blocks.take j, rg.blocks.drop (j + 1),
              (decomp_of_get h2).1, (decomp_of_get h2).2⟩
          obtain ⟨hPQ, hPlen⟩ := decomp_of_get h1
          have hrg_mem : rg ∈ s.regions := by
            rw [hPQ]
            exact List.mem_append_right _ (List.mem_cons_self _ _)
          have hb_mem : b ∈ rg.blocks := by
            rw [hLR]
            exact List.mem_append_right _ (List.mem_cons_self _ _)
          have hbid_notfl : b.id ∉ s.freeList := by
            intro hmem
            have hcontra := (hs.fid rg hrg_mem b hb_mem).mpr hmem
            rw [hbf] at hcontra
            exact Bool.false_ne_true hcontra
          -- the freed block
          have hsetb : rg.blocks.set j (⟨b.id, b.addr, b.size, true⟩ : Blk)
              = L ++ ⟨b.id, b.addr, b.size, true⟩ :: R := by
            have hmid := set_mid L b (⟨b.id, b.addr, b.size, true⟩ : Blk) R
            rw [hLlen] at hmid
            rw [← hLR] at hmid
            exact hmid
          -- neighbour structure of the region
          have hchain := hs.noadj rg hrg_mem
          rw [hLR, List.chain'_append, List.chain'_cons'] at hchain
          obtain ⟨hcL, ⟨hbR, hcR⟩, hlink⟩ := hchain
          have hcov := hs.layout rg hrg_mem
          rw [hLR] at hcov
          rw [covers_append_iff] at hcov
          obtain ⟨m, hcovL, hcovbr⟩ := hcov
          rw [covers_cons_iff] at hcovbr
          obtain ⟨hbaddr, hcovR⟩ := hcovbr
          -- identity bookkeeping
          have hidsrg : idsOf rg = L.map Blk.id ++ b.id :: R.map Blk.id := by
            unfold idsOf
            conv_lhs => rw [hLR]
            simp
          have hnd_grouped : (((s.regions.take i).map idsOf).flatten
              ++ (idsOf rg ++ ((s.regions.drop (i + 1)).map idsOf).flatten)).Nodup := by
            have he : blkIds s = ((s.regions.take i).map idsOf).flatten
                ++ (idsOf rg ++ ((s.regions.drop (i + 1)).map idsOf).flatten) := by
              unfold blkIds
              conv_lhs => rw [hPQ]
              simp
            rw [← he]
            exact hs.gids.1
          obtain ⟨hndP, hndMQ, hdisjP⟩ := List.nodup_append.mp hnd_grouped
          obtain ⟨hndM, hndQ, hdisjMQ⟩ := List.nodup_append.mp hndMQ
          have hother_ids : ∀ rg2 ∈ s.regions.take i ++ s.regions.drop (i + 1),
              ∀ x ∈ rg2.blocks, x.id ∉ idsOf rg := by
            intro rg2 hm x hx hcon
            rcases List.mem_append.mp hm with hmP | hmQ
            · exact hdisjP (mem_flat_ids hmP hx) (List.mem_append.mpr (Or.inl hcon))
            · exact hdisjMQ hcon (mem_flat_ids hmQ hx)
          have hndM2 := hndM
          rw [hidsrg] at hndM2
          obtain ⟨hndL, hndbR, hdisjLbR⟩ := List.nodup_append.mp hndM2
          obtain ⟨hbnotR, hndR⟩ := List.nodup_cons.mp hndbR
          have f1 : ∀ x ∈ L, x.id ≠ b.id := by
            intro x hx hcon
            exact hdisjLbR (List.mem_map_of_mem _ hx)
              (by rw [hcon]; exact List.mem_cons_self _ _)
          have f2 : ∀ x ∈ R, x.id ≠ b.id := by
            intro x hx hcon
            exact hbnotR (by rw [← hcon]; exact List.mem_map_of_mem _ hx)
          have hmemL : ∀ x ∈ L, x ∈ rg.blocks := by
            intro x hx
            rw [hLR]
            exact List.mem_append_left _ hx
          have hmemR : ∀ x ∈ R, x ∈ rg.blocks := by
            intro x hx
            rw [hLR]
            exact List.mem_append_right _ (List.mem_cons_of_mem _ hx)
          -- expose the operation
          simp only [deallocOp, h1, h2]
          rw [if_neg (show ¬(b.is_free = true) by rw [hbf]; exact Bool.false_ne_true)]
          rw [hsetb, ← hLlen]
          -- dichotomies for the two merges
          have hLsplit : (∀ x ∈ L.getLast?, x.is_free = false)
              ∨ ∃ L' pb, L = L' ++ [pb] ∧ pb.is_free = true := by
            cases hLlast : L.getLast? with
            | none =>
              refine Or.inl ?_
              intro x hx
              simp at hx
            | some pb =>
              cases hpbf : pb.is_free with
              | false =>
                refine Or.inl ?_
                intro x hx
                rw [Option.mem_some_iff] at hx
                subst hx
                exact hpbf
              | true =>
                obtain ⟨L', hL'⟩ := List.getLast?_eq_some_iff.mp hLlast
                exact Or.inr ⟨L', pb, hL', hpbf⟩
          have hRsplit : (∀ y ∈ R.head?, y.is_free = false)
              ∨ ∃ nr R', R = nr :: R' ∧ nr.is_free = true := by
            cases hR : R with
            | nil =>
              refine Or.inl ?_
              intro y hy
              simp at hy
            | cons nr R' =>
              cases hnrf : nr.is_free with
              | false =>
                refine Or.inl ?_
                intro y hy
                rw [List.head?_cons, Option.mem_some_iff] at hy
                subst hy
                exact hnrf
              | true => exact Or.inr ⟨nr, R', rfl, hnrf⟩
          rcases hLsplit with hkeepL | ⟨L', pb, hLdecomp, hpbf⟩
          · -- no merge with the previous block
            rw [mergeWithPrev_keep L (⟨b.id, b.addr, b.size, true⟩ : Blk) R
              s.freeList hkeepL]
            dsimp only
            rcases hRsplit with hkeepR | ⟨nr, R', hRdecomp, hnrf⟩
            · -- no merge with the next block either
              rw [mergeWithNext_keep L (⟨b.id, b.addr, b.size, true⟩ : Blk) R
                s.freeList hkeepR]
              dsimp only
              rw [get_mid L (⟨b.id, b.addr, b.size, true⟩ : Blk) R]
              dsimp only
              apply dealloc_endgame s i rg L (⟨b.id, b.addr, b.size, true⟩ : Blk) R
                s.freeList h1 hs hcL hcR hkeepL hkeepR rfl
              · rw [covers_append_iff]
                refine ⟨m, hcovL, ?_⟩
                rw [covers_cons_iff]
                exact ⟨hbaddr, hcovR⟩
              · exact hs.minsz rg hrg_mem b hb_mem
              · intro x hx
                rcases List.mem_append.mp hx with hxL | hxR
                · exact ⟨hmemL x hxL, f1 x hxL⟩
                · exact ⟨hmemR x hxR, f2 x hxR⟩
              · have heq : (L ++ (⟨b.id, b.addr, b.size, true⟩ : Blk) :: R).map Blk.id
                    = rg.blocks.map Blk.id := by
                  conv_rhs => rw [hLR]
                  simp
                rw [heq]
              · intro x hx
                rcases List.mem_append.mp hx with hxL | hxR
                · exact hs.fid rg hrg_mem x (hmemL x hxL)
                · exact hs.fid rg hrg_mem x (hmemR x hxR)
              · intro rg2 hm x hx
                exact hs.fid rg2 (mem_of_mem_take_drop rg2 hm) x hx
              · exact hbid_notfl
              · exact show b.id ∈ idsOf rg from List.mem_map_of_mem _ hb_mem
              · exact hs.gfree.1
              · exact fun y hy => hy
              · intro y hy hyids
                rw [hidsrg] at hyids
                rcases List.mem_append.mp hyids with hyL | hybR
                · rw [List.map_append]
                  exact List.mem_append.mpr (Or.inl hyL)
                · rcases List.mem_cons.mp hybR with rfl | hyR
                  · exact absurd hy hbid_notfl
                  · rw [List.map_append]
                    exact List.mem_append.mpr (Or.inr hyR)
            · -- merge with the next block only
              subst hRdecomp
              rw [mergeWithNext_merge L (⟨b.id, b.addr, b.size, true⟩ : Blk) nr R'
                s.freeList hnrf]
              dsimp only
              rw [get_mid L _ R']
              dsimp only
              have hnr_mem : nr ∈ rg.blocks := hmemR nr (List.mem_cons_self _ _)
              have hnrid_fl : nr.id ∈ s.freeList :=
                (hs.fid rg hrg_mem nr hnr_mem).mp hnrf
              rw [List.chain'_cons'] at hcR
              obtain ⟨hnrR', hcR'⟩ := hcR
              have hheadR' : ∀ y ∈ R'.head?, y.is_free = false :=
                fun y hy => not_free_of_okPair_left hnrf (hnrR' y hy)
              rw [covers_cons_iff] at hcovR
              obtain ⟨hnraddr, hcovR'⟩ := hcovR
              rw [List.map_cons, List.nodup_cons] at hndR
              obtain ⟨hnrnotR', hndR'⟩ := hndR
              have fnr1 : ∀ x ∈ L, x.id ≠ nr.id := by
                intro x hx hcon
                refine hdisjLbR (List.mem_map_of_mem _ hx) ?_
                rw [hcon]
                apply List.mem_cons_of_mem
                rw [List.map_cons]
                exact List.mem_cons_self _ _
              have fnr2 : ∀ x ∈ R', x.id ≠ nr.id := by
                intro x hx hcon
                exact hnrnotR' (by rw [← hcon]; exact List.mem_map_of_mem _ hx)
              apply dealloc_endgame s i rg L
                (⟨b.id, b.addr, b.size + BLOCK_HEADER_SIZE + nr.size, true⟩ : Blk) R'
                (s.freeList.erase nr.id) h1 hs hcL hcR' hkeepL hheadR' rfl
              · rw [covers_append_iff]
                refine ⟨m, hcovL, ?_⟩
                rw [covers_cons_iff]
                refine ⟨hbaddr, ?_⟩
                have harith : m + BLOCK_HEADER_SIZE
                    + (b.size + BLOCK_HEADER_SIZE + nr.size)
                    = m + BLOCK_HEADER_SIZE + b.size + BLOCK_HEADER_SIZE + nr.size := by
                  omega
                rw [harith]
                exact hcovR'
              · have := hs.minsz rg hrg_mem b hb_mem
                show MIN_BLOCK_SIZE ≤ b.size + BLOCK_HEADER_SIZE + nr.size
                omega
              · intro x hx
                rcases List.mem_append.mp hx with hxL | hxR
                · exact ⟨hmemL x hxL, f1 x hxL⟩
                · exact ⟨hmemR x (List.mem_cons_of_mem _ hxR),
                    f2 x (List.mem_cons_of_mem _ hxR)⟩
              · have heq1 : (L ++ (⟨b.id, b.addr,
                    b.size + BLOCK_HEADER_SIZE + nr.size, true⟩ : Blk) :: R').map Blk.id
                    = L.map Blk.id ++ b.id :: R'.map Blk.id := by
                  simp
                have heq2 : rg.blocks.map Blk.id
                    = L.map Blk.id ++ b.id :: nr.id :: R'.map Blk.id := by
                  conv_lhs => rw [hLR]
                  simp
                rw [heq1, heq2]
                exact List.Sublist.append_left
                  (List.Sublist.cons₂ _ (List.Sublist.cons _ (List.Sublist.refl _))) _
              · intro x hx
                rcases List.mem_append.mp hx with hxL | hxR
                · rw [List.mem_erase_of_ne (fnr1 x hxL)]
                  exact hs.fid rg hrg_mem x (hmemL x hxL)
                · rw [List.mem_erase_of_ne (fnr2 x hxR)]
                  exact hs.fid rg hrg_mem x (hmemR x (List.mem_cons_of_mem _ hxR))
              · intro rg2 hm x hx
                have hne : x.id ≠ nr.id := by
                  intro hcon
                  exact hother_ids rg2 hm x hx
                    (by rw [hcon]; exact List.mem_map_of_mem _ hnr_mem)
                rw [List.mem_erase_of_ne hne]
                exact hs.fid rg2 (mem_of_mem_take_drop rg2 hm) x hx
              · exact fun h => hbid_notfl (List.mem_of_mem_erase h)
              · exact show b.id ∈ idsOf rg from List.mem_map_of_mem _ hb_mem
              · exact hs.gfree.1.erase _
              · exact fun y hy => List.mem_of_mem_erase hy
              · intro y hy hyids
                have hy_fl : y ∈ s.freeList := List.mem_of_mem_erase hy
                have hyne_nr : y ≠ nr.id := by
                  intro hcon
                  subst hcon
                  exact hs.gfree.1.not_mem_erase hy
                have hyne_b : y ≠ b.id := fun hcon => hbid_notfl (hcon ▸ hy_fl)
                rw [hidsrg] at hyids
                rcases List.mem_append.mp hyids with hyL | hybR
                · rw [List.map_append]
                  exact List.mem_append.mpr (Or.inl hyL)
                · rcases List.mem_cons.mp hybR with hcon | hyR
                  · exact absurd hcon hyne_b
                  · rw [List.map_cons] at hyR
                    rcases List.mem_cons.mp hyR with hcon | hyR'
                    · exact absurd hcon hyne_nr
                    · rw [List.map_append]
                      exact List.mem_append.mpr (Or.inr hyR')
          · -- merge with the previous block
            subst hLdecomp
            have hpb_mem : pb ∈ rg.blocks := hmemL pb (by simp)
            have hpbid_fl : pb.id ∈ s.freeList :=
              (hs.fid rg hrg_mem pb hpb_mem).mp hpbf
            rw [List.chain'_append] at hcL
            obtain ⟨hcL', -, hlinkL⟩ := hcL
            have hlastL' : ∀ x ∈ L'.getLast?, x.is_free = false :=
              fun x hx => not_free_of_okPair_right hpbf (hlinkL x hx pb rfl)
            rw [covers_append_iff] at hcovL
            obtain ⟨m2, hcovL', hcovpb⟩ := hcovL
            rw [covers_cons_iff] at hcovpb
            obtain ⟨hpbaddr, hnil0⟩ := hcovpb
            rw [covers_nil_iff] at hnil0
            rw [List.map_append] at hndL
            obtain ⟨hndL', -, hdisjL'pb⟩ := List.nodup_append.mp hndL
            have fpb1 : ∀ x ∈ L', x.id ≠ pb.id := by
              intro x hx hcon
              refine hdisjL'pb (List.mem_map_of_mem _ hx) ?_
              rw [hcon]
              simp
            have hpbnotbR : pb.id ∉ b.id :: R.map Blk.id := hdisjLbR (by simp)
            have fpb2 : ∀ x ∈ R, x.id ≠ pb.id := by
              intro x hx hcon
              exact hpbnotbR (List.mem_cons_of_mem _
                (by rw [← hcon]; exact List.mem_map_of_mem _ hx))
            rw [mergeWithPrev_merge L' pb (⟨b.id, b.addr, b.size, true⟩ : Blk) R
              s.freeList hpbf]
            dsimp only
            rcases hRsplit with hkeepR | ⟨nr, R', hRdecomp, hnrf⟩
            · -- no merge with the next block
              rw [mergeWithNext_keep L'
                (⟨pb.id, pb.addr, pb.size + BLOCK_HEADER_SIZE + b.size,
                  pb.is_free⟩ : Blk) R (s.freeList.erase pb.id) hkeepR]
              dsimp only
              rw [get_mid L' _ R]
              dsimp only
              apply dealloc_endgame s i rg L'
                (⟨pb.id, pb.addr, pb.size + BLOCK_HEADER_SIZE + b.size,
                  pb.is_free⟩ : Blk) R
                (s.freeList.erase pb.id) h1 hs hcL' hcR hlastL' hkeepR hpbf
              · rw [covers_append_iff]
                refine ⟨m2, hcovL', ?_⟩
                rw [covers_cons_iff]
                refine ⟨hpbaddr, ?_⟩
                have harith : m2 + BLOCK_HEADER_SIZE
                    + (pb.size + BLOCK_HEADER_SIZE + b.size)
                    = m + BLOCK_HEADER_SIZE + b.size := by
                  omega
                rw [harith]
                exact hcovR
              · have := hs.minsz rg hrg_mem pb hpb_mem
                show MIN_BLOCK_SIZE ≤ pb.size + BLOCK_HEADER_SIZE + b.size
                omega
              · intro x hx
                rcases List.mem_append.mp hx with hxL | hxR
                · exact ⟨hmemL x (List.mem_append_left _ hxL), fpb1 x hxL⟩
                · exact ⟨hmemR x hxR, fpb2 x hxR⟩
              · have heq1 : (L' ++ (⟨pb.id, pb.addr,
                    pb.size + BLOCK_HEADER_SIZE + b.size, pb.is_free⟩ : Blk)
                      :: R).map Blk.id
                    = L'.map Blk.id ++ pb.id :: R.map Blk.id := by
                  simp
                have heq2 : rg.blocks.map Blk.id
                    = L'.map Blk.id ++ pb.id :: b.id :: R.map Blk.id := by
                  conv_lhs => rw [hLR]
                  simp
                rw [heq1, heq2]
                exact List.Sublist.append_left
                  (List.Sublist.cons₂ _ (List.Sublist.cons _ (List.Sublist.refl _))) _
              · intro x hx
                rcases List.mem_append.mp hx with hxL | hxR
                · rw [List.mem_erase_of_ne (fpb1 x hxL)]
                  exact hs.fid rg hrg_mem x (hmemL x (List.mem_append_left _ hxL))
                · rw [List.mem_erase_of_ne (fpb2 x hxR)]
                  exact hs.fid rg hrg_mem x (hmemR x hxR)
              · intro rg2 hm x hx
                have hne : x.id ≠ pb.id := by
                  intro hcon
                  exact hother_ids rg2 hm x hx
                    (by rw [hcon]; exact List.mem_map_of_mem _ hpb_mem)
                rw [List.mem_erase_of_ne hne]
                exact hs.fid rg2 (mem_of_mem_take_drop rg2 hm) x hx
              · show pb.id ∉ s.freeList.erase pb.id
                exact hs.gfree.1.not_mem_erase
              · exact show pb.id ∈ idsOf rg from List.mem_map_of_mem _ hpb_mem
              · exact hs.gfree.1.erase _
              · exact fun y hy => List.mem_of_mem_erase hy
              · intro y hy hyids
                have hy_fl : y ∈ s.freeList := List.mem_of_mem_erase hy
                have hyne_pb : y ≠ pb.id := by
                  intro hcon
                  subst hcon
                  exact hs.gfree.1.not_mem_erase hy
                have hyne_b : y ≠ b.id := fun hcon => hbid_notfl (hcon ▸ hy_fl)
                rw [hidsrg] at hyids
                rcases List.mem_append.mp hyids with hyL | hybR
                · rw [List.map_append] at hyL
                  rcases List.mem_append.mp hyL with hyL' | hypb
                  · rw [List.map_append]
                    exact List.mem_append.mpr (Or.inl hyL')
                  · simp at hypb
                    exact absurd hypb hyne_pb
                · rcases List.mem_cons.mp hybR with hcon | hyR
                  · exact absurd hcon hyne_b
                  · rw [List.map_append]
                    exact List.mem_append.mpr (Or.inr hyR)
            · -- merge with the next block as well
              subst hRdecomp
              rw [mergeWithNext_merge L'
                (⟨pb.id, pb.addr, pb.size + BLOCK_HEADER_SIZE + b.size,
                  pb.is_free⟩ : Blk) nr R' (s.freeList.erase pb.id) hnrf]
              dsimp only
              rw [get_mid L' _ R']
              dsimp only
              have hnr_mem : nr ∈ rg.blocks := hmemR nr (List.mem_cons_self _ _)
              have hnrid_fl : nr.id ∈ s.freeList :=
                (hs.fid rg hrg_mem nr hnr_mem).mp hnrf
              rw [List.chain'_cons'] at hcR
              obtain ⟨hnrR', hcR'⟩ := hcR
              have hheadR' : ∀ y ∈ R'.head?, y.is_free = false :=
                fun y hy => not_free_of_okPair_left hnrf (hnrR' y hy)
              rw [covers_cons_iff] at hcovR
              obtain ⟨hnraddr, hcovR'⟩ := hcovR
              rw [List.map_cons, List.nodup_cons] at hndR
              obtain ⟨hnrnotR', hndR'⟩ := hndR
              have fnrL : ∀ x ∈ L', x.id ≠ nr.id := by
                intro x hx hcon
                refine hdisjLbR
                  (List.mem_map_of_mem _ (List.mem_append_left _ hx)) ?_
                rw [hcon]
                apply List.mem_cons_of_mem
                rw [List.map_cons]
                exact List.mem_cons_self _ _
              have fnrR : ∀ x ∈ R', x.id ≠ nr.id := by
                intro x hx hcon
                exact hnrnotR' (by rw [← hcon]; exact List.mem_map_of_mem _ hx)
              apply dealloc_endgame s i rg L'
                (⟨pb.id, pb.addr,
                  pb.size + BLOCK_HEADER_SIZE + b.size + BLOCK_HEADER_SIZE + nr.size,
                  pb.is_free⟩ : Blk) R'
                ((s.freeList.erase pb.id).erase nr.id) h1 hs hcL' hcR' hlastL'
                hheadR' hpbf
              · rw [covers_append_iff]
                refine ⟨m2, hcovL', ?_⟩
                rw [covers_cons_iff]
                refine ⟨hpbaddr, ?_⟩
                have harith : m2 + BLOCK_HEADER_SIZE
                    + (pb.size + BLOCK_HEADER_SIZE + b.size
                      + BLOCK_HEADER_SIZE + nr.size)
                    = m + BLOCK_HEADER_SIZE + b.size
                      + BLOCK_HEADER_SIZE + nr.size := by
                  omega
                rw [harith]
                exact hcovR'
              · have := hs.minsz rg hrg_mem pb hpb_mem
                show MIN_BLOCK_SIZE ≤ pb.size + BLOCK_HEADER_SIZE + b.size
                  + BLOCK_HEADER_SIZE + nr.size
                omega
              · intro x hx
                rcases List.mem_append.mp hx with hxL | hxR
                · exact ⟨hmemL x (List.mem_append_left _ hxL), fpb1 x hxL⟩
                · exact ⟨hmemR x (List.mem_cons_of_mem _ hxR),
                    fpb2 x (List.mem_cons_of_mem _ hxR)⟩
              · have heq1 : (L' ++ (⟨pb.id, pb.addr,
                    pb.size + BLOCK_HEADER_SIZE + b.size
                      + BLOCK_HEADER_SIZE + nr.size, pb.is_free⟩ : Blk)
                      :: R').map Blk.id
                    = L'.map Blk.id ++ pb.id :: R'.map Blk.id := by
                  simp
                have heq2 : rg.blocks.map Blk.id
                    = L'.map Blk.id ++ pb.id :: b.id :: nr.id :: R'.map Blk.id := by
                  conv_lhs => rw [hLR]
                  simp
                rw [heq1, heq2]
                exact List.Sublist.append_left
                  (List.Sublist.cons₂ _ (List.Sublist.cons _
                    (List.Sublist.cons _ (List.Sublist.refl _)))) _
              · intro x hx
                rcases List.mem_append.mp hx with hxL | hxR
                · rw [List.mem_erase_of_ne (fnrL x hxL),
                    List.mem_erase_of_ne (fpb1 x hxL)]
                  exact hs.fid rg hrg_mem x (hmemL x (List.mem_append_left _ hxL))
                · rw [List.mem_erase_of_ne (fnrR x hxR),
                    List.mem_erase_of_ne (fpb2 x (List.mem_cons_of_mem _ hxR))]
                  exact hs.fid rg hrg_mem x (hmemR x (List.mem_cons_of_mem _ hxR))
              · intro rg2 hm x hx
                have hne_nr : x.id ≠ nr.id := by
                  intro hcon
                  exact hother_ids rg2 hm x hx
                    (by rw [hcon]; exact List.mem_map_of_mem _ hnr_mem)
                have hne_pb : x.id ≠ pb.id := by
                  intro hcon
                  exact hother_ids rg2 hm x hx
                    (by rw [hcon]; exact List.mem_map_of_mem _ hpb_mem)
                rw [List.mem_erase_of_ne hne_nr, List.mem_erase_of_ne hne_pb]
                exact hs.fid rg2 (mem_of_mem_take_drop rg2 hm) x hx
              · show pb.id ∉ (s.freeList.erase pb.id).erase nr.id
                exact fun h => hs.gfree.1.not_mem_erase (List.mem_of_mem_erase h)
              · exact show pb.id ∈ idsOf rg from List.mem_map_of_mem _ hpb_mem
              · exact (hs.gfree.1.erase _).erase _
              · exact fun y hy =>
                  List.mem_of_mem_erase (List.mem_of_mem_erase hy)
              · intro y hy hyids
                have hy1 : y ∈ s.freeList.erase pb.id := List.mem_of_mem_erase hy
                have hy_fl : y ∈ s.freeList := List.mem_of_mem_erase hy1
                have hyne_nr : y ≠ nr.id := by
                  intro hcon
                  subst hcon
                  exact (hs.gfree.1.erase _).not_mem_erase hy
                have hyne_pb : y ≠ pb.id := by
                  intro hcon
                  subst hcon
                  exact hs.gfree.1.not_mem_erase hy1
                have hyne_b : y ≠ b.id := fun hcon => hbid_notfl (hcon ▸ hy_fl)
                rw [hidsrg] at hyids
                rcases List.mem_append.mp hyids with hyL | hybR
                · rw [List.map_append] at hyL
                  rcases List.mem_append.mp hyL with hyL' | hypb
                  · rw [List.map_append]
                    exact List.mem_append.mpr (Or.inl hyL')
                  · simp at hypb
                    exact absurd hypb hyne_pb
                · rcases List.mem_cons.mp hybR with hcon | hyR
                  · exact absurd hcon hyne_b
                  · rw [List.map_cons] at hyR
                    rcases List.mem_cons.mp hyR with hcon | hyR'
                    · exact absurd hcon hyne_nr
                    · rw [List.map_append]
                      exact List.mem_append.mpr (Or.inr hyR')

/-! ## Claim C3 -/

/-- C3: take_from_block on the block B at position j of region i, for a
raw request r: with target = max(align(r, word), MIN_BLOCK_SIZE),
split_offset = align(BLOCK_HEADER_SIZE + target, word) and total =
B.size + BLOCK_HEADER_SIZE, the region's block list gains a block exactly
when total is at least split_offset + BLOCK_HEADER_SIZE + MIN_BLOCK_SIZE;
on a split B is shrunk to split_offset - BLOCK_HEADER_SIZE and a new free
block of payload total - split_offset - BLOCK_HEADER_SIZE is spliced
immediately after B and appended to the free index; otherwise B keeps its
whole payload.  In both cases B leaves the free index, is marked used,
and the returned pointer is B's header address plus BLOCK_HEADER_SIZE. -/
theorem claim_C3_take_from_block (s : AState) (i j r : Nat) (rg : Rgn) (b : Blk)
    (h1 : s.regions[i]? = some rg) (h2 : rg.blocks[j]? = some b) :
    (takeFromBlock s i j r).ret = b.addr + BLOCK_HEADER_SIZE ∧
    ((((takeFromBlock s i j r).state.regions[i]?).map fun z => z.blocks.length)
        = some (rg.blocks.length + 1) ↔
      splitOffset r + BLOCK_HEADER_SIZE + MIN_BLOCK_SIZE ≤ b.size + BLOCK_HEADER_SIZE) ∧
    (splitOffset r + BLOCK_HEADER_SIZE + MIN_BLOCK_SIZE ≤ b.size + BLOCK_HEADER_SIZE →
      (takeFromBlock s i j r).state.regions[i]? =
        some ⟨rg.addr, rg.size,
          rg.blocks.take j
            ++ ⟨b.id, b.addr, splitOffset r - BLOCK_HEADER_SIZE, false⟩
            :: ⟨s.nextId, b.addr + splitOffset r,
                 b.size + BLOCK_HEADER_SIZE - splitOffset r - BLOCK_HEADER_SIZE, true⟩
            :: rg.blocks.drop (j + 1)⟩ ∧
      (takeFromBlock s i j r).state.freeList = s.freeList.erase b.id ++ [s.nextId]) ∧
    (b.size + BLOCK_HEADER_SIZE <
        splitOffset r + BLOCK_HEADER_SIZE + MIN_BLOCK_SIZE →
      (takeFromBlock s i j r).state.regions[i]? =
        some ⟨rg.addr, rg.size, rg.blocks.set j ⟨b.id, b.addr, b.size, false⟩⟩ ∧
      (takeFromBlock s i j r).state.freeList = s.freeList.erase b.id) := by
  have hi : i < s.regions.length := by
    rcases List.getElem?_eq_some_iff.mp h1 with ⟨hlt, _⟩
    exact hlt
  have hj : j < rg.blocks.length := by
    rcases List.getElem?_eq_some_iff.mp h2 with ⟨hlt, _⟩
    exact hlt
  have hso : splitOffset r
      = align (BLOCK_HEADER_SIZE + max (align r WORD) MIN_BLOCK_SIZE) WORD := rfl
  by_cases hsplit : align (BLOCK_HEADER_SIZE + max (align r WORD) MIN_BLOCK_SIZE) WORD
      + BLOCK_HEADER_SIZE + MIN_BLOCK_SIZE ≤ b.size + BLOCK_HEADER_SIZE
  · rw [takeFromBlock_split s i j r rg b h1 h2 hsplit]
    refine ⟨rfl, ?_, ?_, ?_⟩
    · simp only [List.getElem?_set_self hi, Option.map_some]
      constructor
      · intro _
        rw [hso]
        exact hsplit
      · intro _
        simp [List.length_take, List.length_drop]
        omega
    · intro _
      rw [hso]
      simp [List.getElem?_set_self hi]
    · intro hlt
      rw [hso] at hlt
      omega
  · push_neg at hsplit
    rw [takeFromBlock_whole s i j r rg b h1 h2 hsplit]
    refine ⟨rfl, ?_, ?_, ?_⟩
    · simp only [List.getElem?_set_self hi, Option.map_some]
      constructor
      · intro hlen
        have hcon := congrArg (fun o => o.getD 0) hlen
        simp [List.length_set] at hcon
      · intro hle
        rw [hso] at hle
        omega
    · intro hle
      rw [hso] at hle
      omega
    · intro _
      simp [List.getElem?_set_self hi]

theorem claim_C3_witness :
    (takeFromBlock oneFreeState 0 0 100).ret = 4144 + BLOCK_HEADER_SIZE ∧
    ((((takeFromBlock oneFreeState 0 0 100).state.regions[0]?).map fun z => z.blocks.length)
        = some (([⟨0, 4144, 4008, true⟩] : List Blk).length + 1) ↔
      splitOffset 100 + BLOCK_HEADER_SIZE + MIN_BLOCK_SIZE ≤ 4008 + BLOCK_HEADER_SIZE) ∧
    (splitOffset 100 + BLOCK_HEADER_SIZE + MIN_BLOCK_SIZE ≤ 4008 + BLOCK_HEADER_SIZE →
      (takeFromBlock oneFreeState 0 0 100).state.regions[0]? =
        some ⟨4096, 4048,
          ([⟨0, 4144, 4008, true⟩] : List Blk).take 0
            ++ ⟨0, 4144, splitOffset 100 - BLOCK_HEADER_SIZE, false⟩
            :: ⟨1, 4144 + splitOffset 100,
                 4008 + BLOCK_HEADER_SIZE - splitOffset 100 - BLOCK_HEADER_SIZE, true⟩
            :: ([⟨0, 4144, 4008, true⟩] : List Blk).drop 1⟩ ∧
      (takeFromBlock oneFreeState 0 0 100).state.freeList = [0].erase 0 ++ [1]) ∧
    (4008 + BLOCK_HEADER_SIZE < splitOffset 100 + BLOCK_HEADER_SIZE + MIN_BLOCK_SIZE →
      (takeFromBlock oneFreeState 0 0 100).state.regions[0]? =
        some ⟨4096, 4048, ([⟨0, 4144, 4008, true⟩] : List Blk).set 0 ⟨0, 4144, 4008, false⟩⟩ ∧
      (takeFromBlock oneFreeState 0 0 100).state.freeList = [0].erase 0) :=
  claim_C3_take_from_block oneFreeState 0 0 100
    ⟨4096, 4048, [⟨0, 4144, 4008, true⟩]⟩ ⟨0, 4144, 4008, true⟩ (by decide) (by decide)

/-! ## Position lookup: correctness of the pointer-to-position resolution -/

lemma posIn_spec (bs : List Blk) (bid : Nat) :
    ∀ j, posIn bs bid = some j → ∃ b, bs[j]? = some b ∧ b.id = bid := by
  induction bs with
  | nil =>
    intro j h
    simp [posIn] at h
  | cons b rest ih =>
    intro j h
    unfold posIn at h
    by_cases hb : b.id = bid
    · rw [if_pos hb] at h
      have hj : 0 = j := Option.some.inj h
      rw [← hj]
      exact ⟨b, by simp, hb⟩
    · rw [if_neg hb] at h
      rw [Option.map_eq_some'] at h
      obtain ⟨j', hj', hje⟩ := h
      obtain ⟨x, hx, hxid⟩ := ih j' hj'
      refine ⟨x, ?_, hxid⟩
      rw [← hje]
      simpa using hx

lemma posIn_isSome (bs : List Blk) (bid : Nat) :
    bid ∈ bs.map Blk.id → (posIn bs bid).isSome = true := by
  induction bs with
  | nil =>
    intro h
    simp at h
  | cons b rest ih =>
    intro h
    unfold posIn
    by_cases hb : b.id = bid
    · rw [if_pos hb]
      rfl
    · rw [if_neg hb]
      rw [List.map_cons, List.mem_cons] at h
      rcases h with h | h
      · exact absurd h.symm hb
      · cases hp : posIn rest bid with
        | none =>
          have := ih h
          rw [hp] at this
          simp at this
        | some j => rfl

lemma posOfRgns_spec (rs : List Rgn) (bid : Nat) :
    ∀ i j, posOfRgns rs bid = some (i, j) →
      ∃ rg, rs[i]? = some rg ∧ posIn rg.blocks bid = some j := by
  induction rs with
  | nil =>
    intro i j h
    simp [posOfRgns] at h
  | cons rg rest ih =>
    intro i j h
    unfold posOfRgns at h
    cases hp : posIn rg.blocks bid with
    | some j0 =>
      rw [hp] at h
      have h2 := Option.some.inj h
      rw [Prod.mk.injEq] at h2
      obtain ⟨hi, hj⟩ := h2
      rw [← hi, ← hj]
      exact ⟨rg, by simp, hp⟩
    | none =>
      rw [hp] at h
      rw [Option.map_eq_some'] at h
      obtain ⟨⟨i', j'⟩, hp', he⟩ := h
      rw [Prod.mk.injEq] at he
      obtain ⟨hi, hj⟩ := he
      obtain ⟨rg2, hrg2, hpos⟩ := ih i' j' hp'
      refine ⟨rg2, ?_, by rw [← hj]; exact hpos⟩
      rw [← hi]
      simpa using hrg2

lemma posOfRgns_isSome (rs : List Rgn) (bid : Nat) :
    bid ∈ (rs.map idsOf).flatten → (posOfRgns rs bid).isSome = true := by
  induction rs with
  | nil =>
    intro h
    simp at h
  | cons rg rest ih =>
    intro h
    rw [List.map_cons, List.flatten_cons, List.mem_append] at h
    unfold posOfRgns
    cases hp : posIn rg.blocks bid with
    | some j =>
      rfl
    | none =>
      rcases h with h1 | h2
      · have := posIn_isSome rg.blocks bid h1
        rw [hp] at this
        simp at this
      · have := ih h2
        cases hq : posOfRgns rest bid with
        | none =>
          rw [hq] at this
          simp at this
        | some p => rfl

lemma findBlockPos_spec (s : AState) (bid i j : Nat)
    (h : findBlockPos s bid = some (i, j)) :
    ∃ rg b, s.regions[i]? = some rg ∧ rg.blocks[j]? = some b ∧ b.id = bid := by
  obtain ⟨rg, hrg, hpos⟩ := posOfRgns_spec s.regions bid i j h
  obtain ⟨b, hb, hbid⟩ := posIn_spec rg.blocks bid j hpos
  exact ⟨rg, b, hrg, hb, hbid⟩

lemma findBlockPos_isSome (s : AState) (bid : Nat) (h : bid ∈ blkIds s) :
    (findBlockPos s bid).isSome = true :=
  posOfRgns_isSome s.regions bid h

lemma findFreeBlock_mem (s : AState) (r : Nat) {bid : Nat}
    (h : findFreeBlock s r = some bid) : bid ∈ s.freeList := by
  unfold findFreeBlock at h
  by_cases he : s.freeList.isEmpty
  · rw [if_pos he] at h
    exact absurd h (by simp)
  · rw [if_neg he] at h
    exact List.mem_of_find?_eq_some h

/-! ## Invariant preservation: the allocate entry point -/

lemma inv_allocFound (s : AState) (bid r : Nat) (hr : r ≤ RMAX) (hs : Inv s)
    (hfl : bid ∈ s.freeList) : Inv (outState (allocFound s bid r)) := by
  unfold allocFound
  cases hp : findBlockPos s bid with
  | none => exact hs
  | some p =>
    obtain ⟨i, j⟩ := p
    obtain ⟨rg, b, h1, h2, hbid⟩ := findBlockPos_spec s bid i j hp
    obtain ⟨hPQ, _⟩ := decomp_of_get h1
    have hrg_mem : rg ∈ s.regions := by
      rw [hPQ]
      exact List.mem_append_right _ (List.mem_cons_self _ _)
    obtain ⟨hLR, _⟩ := decomp_of_get h2
    have hb_mem : b ∈ rg.blocks := by
      rw [hLR]
      exact List.mem_append_right _ (List.mem_cons_self _ _)
    have hbf : b.is_free = true :=
      (hs.fid rg hrg_mem b hb_mem).mpr (by rw [hbid]; exact hfl)
    show Inv (takeFromBlock s i j r).state
    exact inv_take s i j r rg b h1 h2 hbf hr hs

lemma inv_allocOp (mmapOk : Bool) (s : AState) (r : Nat) (hr : r ≤ RMAX)
    (hs : Inv s) : Inv (outState (allocOp mmapOk s r)) := by
  unfold allocOp
  cases hf : findFreeBlock s r with
  | some bid =>
    exact inv_allocFound s bid r hr hs (findFreeBlock_mem s r hf)
  | none =>
    cases mmapOk with
    | false => exact hs
    | true =>
      show Inv (outState
        (match findFreeBlock (allocateNewRegion s r) r with
         | some bid => allocFound (allocateNewRegion s r) bid r
         | none => AllocOut.ok (allocateNewRegion s r) 0))
      have hs1 : Inv (allocateNewRegion s r) := inv_grow s r hr hs
      cases hf1 : findFreeBlock (allocateNewRegion s r) r with
      | some bid =>
        exact inv_allocFound _ bid r hr hs1 (findFreeBlock_mem _ r hf1)
      | none => exact hs1

lemma inv_alloc (s : AState) (r : Nat) (hr : r ≤ RMAX) (hs : Inv s) :
    Inv (allocState s r) := by
  have he : allocState s r = outState (allocOp true s r) := by
    unfold allocState
    cases allocOp true s r with
    | panicked s1 => rfl
    | ok s1 ret => rfl
  rw [he]
  exact inv_allocOp true s r hr hs

lemma inv_init : Inv initState := by
  constructor
  · intro rg hm
    simp [initState] at hm
  · intro rg hm
    simp [initState] at hm
  · intro rg hm
    simp [initState] at hm
  · intro rg hm
    simp [initState] at hm
  · constructor
    · simp [blkIds, initState]
    · intro bid hm
      simp [blkIds, initState] at hm
  · constructor
    · simp [initState]
    · intro y hy
      simp [initState] at hy

/-- Every reachable allocator state satisfies the full invariant bundle. -/
lemma reach_inv (s : AState) (h : Reach s) : Inv s := by
  induction h with
  | init => exact inv_init
  | alloc s r hs hr ih => exact inv_alloc s r hr ih
  | dealloc s p hs ih => exact inv_dealloc s p ih

/-! ## Claims C4, C6, C7, C10: invariants of every reachable state -/

/-- C4: in every reachable allocator state, after any deallocate
operation returns, no two neighbouring blocks within the same region are
both free. -/
theorem claim_C4_no_adjacent_free (s : AState) (p : Option (Nat × Nat))
    (hs : Reach s) : NoAdjFree (deallocOp s p) :=
  (inv_dealloc s p (reach_inv s hs)).noadj

theorem claim_C4_witness :
    NoAdjFree (deallocOp (allocState initState 8) (some (0, 0))) :=
  claim_C4_no_adjacent_free (allocState initState 8) (some (0, 0))
    (Reach.alloc initState 8 Reach.init (by decide))

/-- C6: in every reachable allocator state, every block of every region
has a payload of at least MIN_BLOCK_SIZE bytes, so a free-index node
always fits inside it. -/
theorem claim_C6_min_payload (s : AState) (hs : Reach s) : MinSized s :=
  (reach_inv s hs).minsz

theorem claim_C6_witness : MinSized (allocState initState 8) :=
  claim_C6_min_payload (allocState initState 8)
    (Reach.alloc initState 8 Reach.init (by decide))

/-- C7: in every reachable allocator state a block is linked in the free
index exactly when its is_free flag is true, and every allocate and every
deallocate from such a state preserves this equivalence for all blocks of
all regions. -/
theorem claim_C7_index_fidelity (s : AState) (hs : Reach s) :
    Fidelity s ∧ (∀ r, r ≤ RMAX → Fidelity (allocState s r)) ∧
      ∀ p, Fidelity (deallocOp s p) :=
  ⟨(reach_inv s hs).fid,
   fun r hr => (inv_alloc s r hr (reach_inv s hs)).fid,
   fun p => (inv_dealloc s p (reach_inv s hs)).fid⟩

theorem claim_C7_witness :
    Fidelity initState ∧ (∀ r, r ≤ RMAX → Fidelity (allocState initState r)) ∧
      ∀ p, Fidelity (deallocOp initState p) :=
  claim_C7_index_fidelity initState Reach.init

/-- C10: in every reachable allocator state all metadata is in band: in
every region the block headers sit contiguously inside the platform
range acquired for that region, the first right after the region header
that occupies the range's base, and every block (with the free-index
node kept inside a free block's payload) lies entirely within that
range. -/
theorem claim_C10_in_band (s : AState) (hs : Reach s) :
    ∀ rg ∈ s.regions,
      covers (rg.addr + REGION_HEADER_SIZE) rg.blocks
        (rg.addr + REGION_HEADER_SIZE + rg.size) = true ∧
      ∀ b ∈ rg.blocks,
        rg.addr + REGION_HEADER_SIZE ≤ b.addr ∧
        b.addr + BLOCK_HEADER_SIZE + b.size
          ≤ rg.addr + REGION_HEADER_SIZE + rg.size := by
  intro rg hm
  have hcov := (reach_inv s hs).layout rg hm
  refine ⟨hcov, ?_⟩
  intro b hb
  exact (covers_bounds _ _ _ hcov).2 b hb

theorem claim_C10_witness :
    (4096 : Nat) + REGION_HEADER_SIZE ≤ 4208 ∧
      4208 + BLOCK_HEADER_SIZE + 3944 ≤ 4096 + REGION_HEADER_SIZE + 4048 :=
  (claim_C10_in_band (allocState initState 8)
      (Reach.alloc initState 8 Reach.init (by decide))
      ⟨4096, 4048, [⟨0, 4144, 24, false⟩, ⟨1, 4208, 3944, true⟩]⟩
      (by decide)).2
    ⟨1, 4208, 3944, true⟩ (by decide)

end Memalloc
